import Mathlib

/-!
Verification of the SmartCashbook client session/authentication subsystem.

This file shallowly embeds the code of the repository that the claims are
about:

* src/utils/jwtUtils.js  (decodeToken, isTokenExpired, getTokenExpirationTime,
  willExpireSoon, getTimeUntilExpiration, userPermissions)
* src/context/AuthContext.js  (updateAuthState, login, logout, refreshToken,
  checkTokenExpiration watchdog, the mount-time initialization effect)
* src/App.js  (RequireAuth route guard)

The JavaScript string pipeline token.split, atob, JSON.parse and
JSON.stringify, btoa is embedded concretely on List Char.  JSON numbers are
represented exactly as m * 10 ^ e with integer m and e; this covers every
number literal JSON admits.  IEEE-754 double rounding is not modelled: the
numbers occurring in the claims (epoch seconds) are far below 2 ^ 53 where
doubles are exact.  JavaScript coercion of non-numeric claim values through
ToNumber is modelled as NaN (comparisons false), which agrees with JS for
objects and non-numeric strings; numeric strings and booleans in numeric
position are outside the modelled fragment and never occur in the claims.
All functions are total; thrown-and-caught JavaScript exceptions are modelled
as explicit failure branches (Option), so "never throws to the caller" holds
by construction and is noted where a claim states it.

Current time is passed explicitly: nowMs is the value of Date.now() in
milliseconds at the instant of the modelled call.
-/

/-- ASCII whitespace as stripped by the forgiving-base64 decode used by atob:
TAB, LF, FF, CR and SPACE. -/
def isB64Ws (c : Char) : Bool :=
  c.toNat = 9 || c.toNat = 10 || c.toNat = 12 || c.toNat = 13 || c.toNat = 32

/-- Decimal digit test on a character (ASCII 48 to 57). -/
def isDigitC (c : Char) : Bool :=
  48 ≤ c.toNat && c.toNat ≤ 57

/-- Numeric value of a decimal digit character. -/
def digitVal (c : Char) : Nat := c.toNat - 48

/-- Decimal digit character for a value below ten. -/
def digitCh (n : Nat) : Char := Char.ofNat (48 + n)

/-- Value of a list of decimal digit characters, most significant first. -/
def digitsVal (ds : List Char) : Nat :=
  ds.foldl (fun a c => a * 10 + digitVal c) 0

/-- Decimal digits of a natural number, via explicit fuel so that the
definition is structural and evaluates inside the kernel.  Sufficient fuel is
any bound above the number itself. -/
def natDigitsAux : Nat → Nat → List Char
  | 0, _ => []
  | f + 1, n => if n < 10 then [digitCh n] else natDigitsAux f (n / 10) ++ [digitCh (n % 10)]

/-- Decimal representation of a natural number as characters. -/
def natReprC (n : Nat) : List Char := natDigitsAux (n + 1) n

/-- Decimal representation of an integer as characters, with a leading minus
sign for negative numbers. -/
def intReprC (i : Int) : List Char :=
  if i < 0 then '-' :: natReprC i.natAbs else natReprC i.natAbs

/-- The base64 alphabet, in index order. -/
def b64Alphabet : List Char :=
  "ABCDEFGHIJKLMNOPQRSTUVWXYZabcdefghijklmnopqrstuvwxyz0123456789+/".data

/-- Character at a given index of the base64 alphabet. -/
def b64Char (n : Nat) : Char := (b64Alphabet.get? n).getD 'A'

/-- Index of a character in the base64 alphabet, if it belongs to it. -/
def b64IndexAux : List Char → Nat → Char → Option Nat
  | [], _, _ => none
  | a :: as, i, c => if c = a then some i else b64IndexAux as (i + 1) c

/-- Index of a character in the base64 alphabet, if it belongs to it. -/
def b64Index (c : Char) : Option Nat := b64IndexAux b64Alphabet 0 c

/-- Map every character of a base64 payload to its alphabet index, failing on
the first character outside the alphabet. -/
def b64Indexes : List Char → Option (List Nat)
  | [] => some []
  | c :: cs =>
    match b64Index c, b64Indexes cs with
    | some i, some is => some (i :: is)
    | _, _ => none

/-- Reassemble bytes from base64 sextets.  A trailing group of two sextets
yields one byte and a group of three yields two, with leftover bits discarded,
exactly as the forgiving-base64 decode does.  A single leftover sextet is
impossible after the length check and is rejected. -/
def atobQuads : List Nat → Option (List Nat)
  | [] => some []
  | [x, y] => some [x * 4 + y / 16]
  | [x, y, z] => some [x * 4 + y / 16, y % 16 * 16 + z / 4]
  | x :: y :: z :: w :: rest =>
    match atobQuads rest with
    | some bs => some ((x * 4 + y / 16) :: (y % 16 * 16 + z / 4) :: (z % 4 * 64 + w) :: bs)
    | none => none
  | [_] => none

/-- Strip one or two trailing padding characters, as forgiving-base64 does
when the length of the data is divisible by four. -/
def stripPad (cs : List Char) : List Char :=
  match cs.reverse with
  | '=' :: '=' :: r => r.reverse
  | '=' :: r => r.reverse
  | _ => cs

/-- The browser atob function: forgiving-base64 decode.  Whitespace is
removed, then padding is stripped when the length is a multiple of four; a
remaining length congruent to 1 mod 4 or any character outside the alphabet
raises InvalidCharacterError, modelled as none.  The result is the decoded
byte string (every character below 256). -/
def atobC (cs : List Char) : Option (List Char) :=
  let d := cs.filter (fun c => !isB64Ws c)
  let d2 := if d.length % 4 = 0 then stripPad d else d
  if d2.length % 4 = 1 then none
  else
    match b64Indexes d2 with
    | none => none
    | some idxs =>
      match atobQuads idxs with
      | none => none
      | some bytes => some (bytes.map Char.ofNat)

/-- The browser atob on strings; JavaScript coerces a missing argument to the
string "undefined" before decoding, which the call sites rely on. -/
def atob (s : String) : Option String :=
  (atobC s.data).map fun cs => String.mk cs

/-- Base64-encode a byte list (values below 256), three bytes at a time, with
standard '=' padding. -/
def btoaTriples : List Nat → List Char
  | [] => []
  | [a] => [b64Char (a / 4), b64Char (a % 4 * 16), '=', '=']
  | [a, b] => [b64Char (a / 4), b64Char (a % 4 * 16 + b / 16), b64Char (b % 16 * 4), '=']
  | a :: b :: c :: rest =>
    b64Char (a / 4) :: b64Char (a % 4 * 16 + b / 16) :: b64Char (b % 16 * 4 + c / 64)
      :: b64Char (c % 64) :: btoaTriples rest

/-- The browser btoa function: base64-encode a string whose characters are all
below 256; any larger character raises InvalidCharacterError, modelled as
none. -/
def btoaC (cs : List Char) : Option (List Char) :=
  if cs.all (fun c => c.toNat < 256) then some (btoaTriples (cs.map Char.toNat)) else none

/-- The browser btoa on strings. -/
def btoa (s : String) : Option String :=
  (btoaC s.data).map fun cs => String.mk cs

/-- Split a character list on the dot character, mirroring the JavaScript
String.split with a one-character separator. -/
def splitDotsAux (acc : List Char) : List Char → List (List Char)
  | [] => [acc.reverse]
  | c :: cs => if c = '.' then acc.reverse :: splitDotsAux [] cs else splitDotsAux (c :: acc) cs

/-- JavaScript token.split on the dot character. -/
def splitDots (s : String) : List (List Char) := splitDotsAux [] s.data

/-- JSON whitespace accepted by JSON.parse: space, TAB, LF, CR. -/
def isJsonWs (c : Char) : Bool :=
  c = ' ' || c = '\t' || c = '\n' || c = '\r'

/-- Drop leading JSON whitespace. -/
def skipWs : List Char → List Char
  | [] => []
  | c :: cs => if isJsonWs c then skipWs cs else c :: cs

mutual
/-- A JavaScript value produced by JSON.parse.  Numbers are kept exactly as
mant * 10 ^ e10, which represents every JSON number literal; IEEE-754
rounding of doubles is outside the model. -/
inductive JVal where
  | null
  | bool (b : Bool)
  | num (mant : Int) (e10 : Int)
  | str (s : String)
  | arr (elems : JArr)
  | obj (mems : JObj)
/-- Spine of a JSON array (a list, kept mutual so that structural recursion
over values evaluates inside the kernel). -/
inductive JArr where
  | anil
  | acons (hd : JVal) (tl : JArr)
/-- Spine of a JSON object: ordered key/value members, as JavaScript objects
are ordered. -/
inductive JObj where
  | onil
  | ocons (k : String) (v : JVal) (tl : JObj)
end

/-- Property lookup in an object, first occurrence wins (the parser never
produces duplicate keys, mirroring JavaScript property assignment). -/
def lookupO : JObj → String → Option JVal
  | .onil, _ => none
  | .ocons k0 v tl, k => if k0 = k then some v else lookupO tl k

/-- JavaScript property assignment on an ordered object: an existing key keeps
its position and gets the new value, a new key is appended at the end. -/
def setKeyO : JObj → String → JVal → JObj
  | .onil, k, v => .ocons k v .onil
  | .ocons k0 v0 tl, k, v =>
    if k0 = k then .ocons k0 v tl else .ocons k0 v0 (setKeyO tl k v)

/-- Append a value at the end of an array spine. -/
def snocA : JArr → JVal → JArr
  | .anil, v => .acons v .anil
  | .acons h tl, v => .acons h (snocA tl v)

/-- Hexadecimal digit value, accepting both cases. -/
def hexVal (c : Char) : Option Nat :=
  if 48 ≤ c.toNat && c.toNat ≤ 57 then some (c.toNat - 48)
  else if 97 ≤ c.toNat && c.toNat ≤ 102 then some (c.toNat - 87)
  else if 65 ≤ c.toNat && c.toNat ≤ 70 then some (c.toNat - 55)
  else none

/-- Single-character JSON string escapes. -/
def escCharOf (c : Char) : Option Char :=
  if c = '"' then some '"'
  else if c = '\\' then some '\\'
  else if c = '/' then some '/'
  else if c = 'b' then some (Char.ofNat 8)
  else if c = 'f' then some (Char.ofNat 12)
  else if c = 'n' then some '\n'
  else if c = 'r' then some '\r'
  else if c = 't' then some '\t'
  else none

/-- Four hexadecimal digits after a \u escape. -/
def parseHex4 : List Char → Option (Nat × List Char)
  | h1 :: h2 :: h3 :: h4 :: rest =>
    match hexVal h1, hexVal h2, hexVal h3, hexVal h4 with
    | some a, some b, some c, some d => some ((((a * 16 + b) * 16 + c) * 16 + d), rest)
    | _, _, _, _ => none
  | _ => none

/-- Body of a JSON string after the opening quote: raw characters from 0x20 up,
escapes, and \uXXXX with surrogate pairs combined.  JavaScript retains lone
surrogates in strings; those are not representable as Lean characters and are
modelled as a parse failure (they never occur in the claims).  Fuel is the
remaining input length plus one. -/
def parseStrBody : Nat → List Char → Option (List Char × List Char)
  | 0, _ => none
  | f + 1, cs =>
    match cs with
    | [] => none
    | c :: rest =>
      if c = '"' then some ([], rest)
      else if c = '\\' then
        match rest with
        | [] => none
        | e :: rest2 =>
          if e = 'u' then
            match parseHex4 rest2 with
            | none => none
            | some (code, rest3) =>
              if 0xD800 ≤ code ∧ code ≤ 0xDBFF then
                match rest3 with
                | '\\' :: u2 :: rest4 =>
                  if u2 = 'u' then
                    match parseHex4 rest4 with
                    | some (lo, rest5) =>
                      if 0xDC00 ≤ lo ∧ lo ≤ 0xDFFF then
                        match parseStrBody f rest5 with
                        | some (s, r) =>
                          some (Char.ofNat (0x10000 + (code - 0xD800) * 1024 + (lo - 0xDC00)) :: s, r)
                        | none => none
                      else none
                    | none => none
                  else none
                | _ => none
              else if 0xDC00 ≤ code ∧ code ≤ 0xDFFF then none
              else
                match parseStrBody f rest3 with
                | some (s, r) => some (Char.ofNat code :: s, r)
                | none => none
          else
            match escCharOf e with
            | some ec =>
              match parseStrBody f rest2 with
              | some (s, r) => some (ec :: s, r)
              | none => none
            | none => none
      else if c.toNat < 32 then none
      else
        match parseStrBody f rest with
        | some (s, r) => some (c :: s, r)
        | none => none

/-- Take the maximal leading run of decimal digits. -/
def takeDigits : List Char → List Char × List Char
  | [] => ([], [])
  | c :: cs =>
    if isDigitC c then
      let p := takeDigits cs
      (c :: p.1, p.2)
    else ([], c :: cs)

/-- Integer part of a JSON number: one or more digits, no leading zero unless
the part is exactly 0. -/
def parseIntPart (cs : List Char) : Option (Nat × List Char) :=
  match takeDigits cs with
  | ([], _) => none
  | (d :: ds, rest) =>
    if d = '0' ∧ ds ≠ [] then none else some (digitsVal (d :: ds), rest)

/-- Optional fraction part: value of the digits, their count, and the rest. -/
def parseFracPart : List Char → Option (Nat × Nat × List Char)
  | [] => some (0, 0, [])
  | c :: rest =>
    if c = '.' then
      match takeDigits rest with
      | ([], _) => none
      | (ds, r) => some (digitsVal ds, ds.length, r)
    else some (0, 0, c :: rest)

/-- Digits of an exponent, which JSON allows to carry leading zeros. -/
def parseExpDigits (sign : Int) (cs : List Char) : Option (Int × List Char) :=
  match takeDigits cs with
  | ([], _) => none
  | (d :: ds, r) => some (sign * (digitsVal (d :: ds) : Int), r)

/-- Optional exponent part. -/
def parseExpPart : List Char → Option (Int × List Char)
  | [] => some (0, [])
  | c :: rest =>
    if c = 'e' ∨ c = 'E' then
      match rest with
      | [] => none
      | c2 :: rest2 =>
        if c2 = '+' then parseExpDigits 1 rest2
        else if c2 = '-' then parseExpDigits (-1) rest2
        else parseExpDigits 1 (c2 :: rest2)
    else some (0, c :: rest)

/-- Unsigned JSON number: integer part, optional fraction, optional exponent,
assembled exactly as mant * 10 ^ e10. -/
def parseNumAbs (cs : List Char) : Option ((Int × Int) × List Char) :=
  match parseIntPart cs with
  | none => none
  | some (i, rest) =>
    match parseFracPart rest with
    | none => none
    | some (fv, fk, rest2) =>
      match parseExpPart rest2 with
      | none => none
      | some (ev, rest3) => some (((i * 10 ^ fk + fv : Nat), ev - fk), rest3)

/-- A JSON number with optional leading minus. -/
def parseNum : List Char → Option ((Int × Int) × List Char)
  | [] => none
  | c :: rest =>
    if c = '-' then
      match parseNumAbs rest with
      | some (mn, r) => some ((-mn.1, mn.2), r)
      | none => none
    else parseNumAbs (c :: rest)

mutual
/-- One JSON value, leading whitespace allowed, returning the unconsumed rest.
Fuel decreases at each nested value or member so that recursion is structural;
the input length plus one is always sufficient. -/
def parseVal : Nat → List Char → Option (JVal × List Char)
  | 0, _ => none
  | f + 1, cs =>
    if (skipWs cs).head? = some '\x7b' then
      if (skipWs (skipWs cs).tail).head? = some '\x7d' then
        some (.obj .onil, (skipWs (skipWs cs).tail).tail)
      else parseMembers f .onil (skipWs (skipWs cs).tail)
    else if (skipWs cs).head? = some '[' then
      if (skipWs (skipWs cs).tail).head? = some ']' then
        some (.arr .anil, (skipWs (skipWs cs).tail).tail)
      else parseElems f .anil (skipWs (skipWs cs).tail)
    else if (skipWs cs).head? = some '"' then
      match parseStrBody ((skipWs cs).tail.length + 1) (skipWs cs).tail with
      | some (s, rest2) => some (.str (String.mk s), rest2)
      | none => none
    else if (skipWs cs).head? = some 't' then
      match (skipWs cs).tail with
      | 'r' :: 'u' :: 'e' :: rest2 => some (.bool true, rest2)
      | _ => none
    else if (skipWs cs).head? = some 'f' then
      match (skipWs cs).tail with
      | 'a' :: 'l' :: 's' :: 'e' :: rest2 => some (.bool false, rest2)
      | _ => none
    else if (skipWs cs).head? = some 'n' then
      match (skipWs cs).tail with
      | 'u' :: 'l' :: 'l' :: rest2 => some (.null, rest2)
      | _ => none
    else
      match parseNum (skipWs cs) with
      | some (mn, rest2) => some (.num mn.1 mn.2, rest2)
      | none => none
/-- Members of an object after its opening brace, positioned at a key quote.
Duplicate keys behave as JavaScript property assignment: last value wins, the
first occurrence fixes the position. -/
def parseMembers : Nat → JObj → List Char → Option (JVal × List Char)
  | 0, _, _ => none
  | f + 1, acc, cs =>
    if cs.head? = some '"' then
      match parseStrBody (cs.tail.length + 1) cs.tail with
      | some (k, rest2) =>
        if (skipWs rest2).head? = some ':' then
          match parseVal f (skipWs rest2).tail with
          | some (v, rest4) =>
            if (skipWs rest4).head? = some ',' then
              parseMembers f (setKeyO acc (String.mk k) v) (skipWs (skipWs rest4).tail)
            else if (skipWs rest4).head? = some '\x7d' then
              some (.obj (setKeyO acc (String.mk k) v), (skipWs rest4).tail)
            else none
          | none => none
        else none
      | none => none
    else none
/-- Elements of an array after its opening bracket. -/
def parseElems : Nat → JArr → List Char → Option (JVal × List Char)
  | 0, _, _ => none
  | f + 1, acc, cs =>
    match parseVal f cs with
    | some (v, rest) =>
      if (skipWs rest).head? = some ',' then parseElems f (snocA acc v) (skipWs rest).tail
      else if (skipWs rest).head? = some ']' then some (.arr (snocA acc v), (skipWs rest).tail)
      else none
    | none => none
end

/-- The JSON.parse function: one value surrounded by optional whitespace; any
leftover input is an error.  A thrown SyntaxError is modelled as none.  The
fuel 2*length+2 dominates the recursion depth of the grammar on any input. -/
def jsonParse (s : String) : Option JVal :=
  match parseVal (2 * s.data.length + 2) s.data with
  | some (v, rest) =>
    match skipWs rest with
    | [] => some v
    | _ => none
  | none => none

/-- Lowercase hexadecimal digit character. -/
def hexDigitCh (n : Nat) : Char :=
  if n < 10 then Char.ofNat (48 + n) else Char.ofNat (87 + n)

/-- JSON.stringify escaping of one string character: quote, backslash, the
short control escapes, \u00xx for other control characters, everything else
raw. -/
def escSeq (c : Char) : List Char :=
  if c = '"' then ['\\', '"']
  else if c = '\\' then ['\\', '\\']
  else if c.toNat = 8 then ['\\', 'b']
  else if c.toNat = 9 then ['\\', 't']
  else if c.toNat = 10 then ['\\', 'n']
  else if c.toNat = 12 then ['\\', 'f']
  else if c.toNat = 13 then ['\\', 'r']
  else if c.toNat < 32 then ['\\', 'u', '0', '0', hexDigitCh (c.toNat / 16), hexDigitCh (c.toNat % 16)]
  else [c]

/-- Escaped body of a JSON string literal. -/
def quoteBody : List Char → List Char
  | [] => []
  | c :: cs => escSeq c ++ quoteBody cs

/-- A quoted JSON string literal. -/
def quoteStr (cs : List Char) : List Char :=
  '"' :: quoteBody cs ++ ['"']

/-- Serialized form of mant * 10 ^ e10.  JavaScript prints doubles in shortest
decimal form; this model prints a plain integer when e10 = 0 and exponent
notation otherwise, which denotes the same number and reparses to the same
value.  The numbers the session code writes (epoch seconds) always have
e10 = 0. -/
def numReprC (m e : Int) : List Char :=
  if e = 0 then intReprC m else intReprC m ++ 'e' :: intReprC e

mutual
/-- JSON.stringify of a value (no replacer, no spacing). -/
def stringifyV : JVal → List Char
  | .null => "null".data
  | .bool true => "true".data
  | .bool false => "false".data
  | .num m e => numReprC m e
  | .str s => quoteStr s.data
  | .arr xs => '[' :: (stringifyA xs ++ [']'])
  | .obj ms => '\x7b' :: (stringifyO ms ++ ['\x7d'])
/-- Comma-separated serialized array elements. -/
def stringifyA : JArr → List Char
  | .anil => []
  | .acons v .anil => stringifyV v
  | .acons v tl => stringifyV v ++ (',' :: stringifyA tl)
/-- Comma-separated serialized object members. -/
def stringifyO : JObj → List Char
  | .onil => []
  | .ocons k v .onil => quoteStr k.data ++ (':' :: stringifyV v)
  | .ocons k v tl => quoteStr k.data ++ (':' :: stringifyV v) ++ (',' :: stringifyO tl)
end

/-- JSON.stringify on a value, as a string. -/
def stringify (v : JVal) : String := String.mk (stringifyV v)

/-- JavaScript truthiness of a parsed value; NaN never occurs in parsed
values. -/
def jsTruthy : JVal → Bool
  | .null => false
  | .bool b => b
  | .num m _ => decide (m ≠ 0)
  | .str s => decide (s ≠ "")
  | .arr _ => true
  | .obj _ => true

/-- Truthiness of a possibly-undefined value (undefined is falsy). -/
def truthyOpt : Option JVal → Bool
  | some v => jsTruthy v
  | none => false

/-- JavaScript property read on a parsed value: objects look the key up,
other primitives yield undefined.  Reading a property of null throws; the
call sites that can reach null model that throw explicitly. -/
def jsGet : JVal → String → Option JVal
  | .obj ms, k => lookupO ms k
  | _, _ => none

/-- The JavaScript expression a || b on possibly-undefined values. -/
def jsOr (a b : Option JVal) : Option JVal :=
  if truthyOpt a then a else b

/-- ToNumber on the values that reach numeric contexts in this code.
Non-numeric strings, arrays and objects become NaN in JavaScript, modelled as
none; every numeric comparison against none is false, matching NaN.  Numeric
strings coerce to their value in JavaScript and are outside the modelled
fragment (no claim involves them). -/
def toNum : JVal → Option (Int × Int)
  | .num m e => some (m, e)
  | .bool b => some (if b then 1 else 0, 0)
  | .null => some (0, 0)
  | _ => none

/-- Whether mant * 10 ^ e10 is strictly below the integer c, computed with
integer arithmetic only. -/
def dnLtInt (m e c : Int) : Bool :=
  if 0 ≤ e then decide (m * 10 ^ e.toNat < c) else decide (m < c * 10 ^ (-e).toNat)

/-- Whether mant * 10 ^ e10 is at most the integer c. -/
def dnLeInt (m e c : Int) : Bool :=
  if 0 ≤ e then decide (m * 10 ^ e.toNat ≤ c) else decide (m ≤ c * 10 ^ (-e).toNat)

/-- The exact rational value mant * 10 ^ e10, used in specification
statements. -/
def dnVal (m e : Int) : ℚ :=
  if 0 ≤ e then ((m * 10 ^ e.toNat : Int) : ℚ)
  else (m : ℚ) / ((10 ^ (-e).toNat : Int) : ℚ)

/-- Math.floor of (M * 10 ^ e10 - nowMs) / 60000: the whole minutes until an
expiration instant of M * 10 ^ e10 milliseconds, computed with integer floor
division only. -/
def timeLeftMinutes (bigM e nowMs : Int) : Int :=
  if 0 ≤ e then Int.fdiv (bigM * 10 ^ e.toNat - nowMs) 60000
  else Int.fdiv (bigM - nowMs * 10 ^ (-e).toNat) (60000 * 10 ^ (-e).toNat)

/-- jwtUtils.decodeToken: JSON.parse(atob(token.split('.')[1])) under a
try/catch that turns every throw into null.  A token with fewer than two
dot-separated segments makes the index read undefined, which atob coerces to
the string "undefined" (an invalid base64 length) before failing. -/
def decodeToken (token : String) : Option JVal :=
  match atobC (((splitDots token).get? 1).getD "undefined".data) with
  | none => none
  | some payloadText => jsonParse (String.mk payloadText)

/-- jwtUtils.isTokenExpired: true when the payload is missing or falsy, or the
exp member is missing or falsy; otherwise the JavaScript comparison
payload.exp < Math.floor(Date.now() / 1000).  A truthy non-numeric exp
compares as NaN, hence false. -/
def isTokenExpired (token : String) (nowMs : Int) : Bool :=
  match decodeToken token with
  | none => true
  | some payload =>
    if !jsTruthy payload then true
    else
      match jsGet payload "exp" with
      | none => true
      | some e =>
        if !jsTruthy e then true
        else
          match toNum e with
          | some mn => dnLtInt mn.1 mn.2 (Int.fdiv nowMs 1000)
          | none => false

/-- jwtUtils.getTokenExpirationTime: payload.exp * 1000 in milliseconds, as
the exact decimal pair (exp mant * 1000, e10); none covers both the null
return for a missing or falsy exp and the NaN product of a truthy non-numeric
exp, which every caller treats identically (both are falsy). -/
def getTokenExpirationTime (token : String) : Option (Int × Int) :=
  match decodeToken token with
  | none => none
  | some payload =>
    if !jsTruthy payload then none
    else
      match jsGet payload "exp" with
      | none => none
      | some e =>
        if !jsTruthy e then none
        else
          match toNum e with
          | some mn => some (mn.1 * 1000, mn.2)
          | none => none

/-- jwtUtils.willExpireSoon: false when the expiration instant is falsy,
otherwise expirationTime <= Date.now() + minutes * 60 * 1000. -/
def willExpireSoon (token : String) (nowMs : Int) (minutes : Int) : Bool :=
  match getTokenExpirationTime token with
  | none => false
  | some mn => dnLeInt mn.1 mn.2 (nowMs + minutes * 60 * 1000)

/-- jwtUtils.getTimeUntilExpiration: 0 when the expiration instant is falsy,
otherwise Math.max(0, Math.floor((expirationTime - Date.now()) / 60000)). -/
def getTimeUntilExpiration (token : String) (nowMs : Int) : Int :=
  match getTokenExpirationTime token with
  | none => 0
  | some mn => max 0 (timeLeftMinutes mn.1 mn.2 nowMs)

/-- userPermissions.canRead; a role of none models a JavaScript undefined
argument, which Array.includes never matches. -/
def canRead (role : Option String) : Bool :=
  match role with
  | some r => ["Admin", "DataEntryUser", "Observer"].contains r
  | none => false

/-- userPermissions.canWrite. -/
def canWrite (role : Option String) : Bool :=
  match role with
  | some r => ["Admin", "DataEntryUser"].contains r
  | none => false

/-- userPermissions.canUpdate. -/
def canUpdate (role : Option String) : Bool :=
  match role with
  | some r => ["Admin", "DataEntryUser"].contains r
  | none => false

/-- userPermissions.canDelete. -/
def canDelete (role : Option String) : Bool :=
  match role with
  | some r => ["Admin", "DataEntryUser"].contains r
  | none => false

/-- userPermissions.canManageUsers: strict equality with the Admin role. -/
def canManageUsers (role : Option String) : Bool :=
  match role with
  | some r => decide (r = "Admin")
  | none => false

/-- userPermissions.getRoleDisplayName: known roles map to a label, anything
else (including undefined) is returned unchanged. -/
def getRoleDisplayName (role : Option String) : Option String :=
  match role with
  | some "Admin" => some "Administrator"
  | some "DataEntryUser" => some "Data Entry User"
  | some "Observer" => some "Observer"
  | r => r

/-- Legacy XML-namespace claim URI for the user identifier. -/
def claimNameId : String := "http://schemas.xmlsoap.org/ws/2005/05/identity/claims/nameidentifier"

/-- Legacy XML-namespace claim URI for the user name. -/
def claimName : String := "http://schemas.xmlsoap.org/ws/2005/05/identity/claims/name"

/-- Legacy XML-namespace claim URI for the email address. -/
def claimEmail : String := "http://schemas.xmlsoap.org/ws/2005/05/identity/claims/emailaddress"

/-- Legacy XML-namespace claim URI for the role. -/
def claimRole : String := "http://schemas.microsoft.com/ws/2008/06/identity/claims/role"

/-- The user object assembled by decodeUserFromToken in AuthContext.js; each
field holds the claim value or is undefined. -/
structure UserInfo where
  userId : Option JVal
  username : Option JVal
  email : Option JVal
  role : Option JVal
  exp : Option JVal

/-- AuthContext decodeUserFromToken: null for a falsy token or a falsy
decoded payload, otherwise the record of claims, preferring the namespaced
legacy URI over the short name through the JavaScript or. -/
def decodeUserFromToken (token : String) : Option UserInfo :=
  if token = "" then none
  else
    match decodeToken token with
    | some payload =>
      if jsTruthy payload then
        some
          { userId := jsOr (jsGet payload claimNameId) (jsGet payload "userId")
            username := jsOr (jsGet payload claimName) (jsGet payload "username")
            email := jsOr (jsGet payload claimEmail) (jsGet payload "email")
            role := jsOr (jsGet payload claimRole) (jsGet payload "role")
            exp := jsGet payload "exp" }
      else none
    | none => none

/-- The state owned by AuthProvider, together with the single durable-storage
slot localStorage token that the provider reads and writes.  A storage value
of none is an absent key. -/
structure AuthState where
  token : Option String
  user : Option UserInfo
  isAuthenticated : Bool
  isTokenExpiring : Bool
  timeUntilExpiration : Int
  storage : Option String

/-- JavaScript truthiness of a nullable string (null and the empty string are
falsy). -/
def truthyStr : Option String → Bool
  | some s => decide (s ≠ "")
  | none => false

/-- AuthContext updateAuthState: with a truthy token it persists the token,
re-derives the user, sets isAuthenticated to true unconditionally and
recomputes the two expiry fields; with a falsy token it removes the stored
token and clears every field. -/
def updateAuthState (s : AuthState) (newToken : Option String) (nowMs : Int) : AuthState :=
  match newToken with
  | some t =>
    if t ≠ "" then
      { token := some t
        storage := some t
        user := decodeUserFromToken t
        isAuthenticated := true
        isTokenExpiring := willExpireSoon t nowMs 5
        timeUntilExpiration := getTimeUntilExpiration t nowMs }
    else
      { token := none, user := none, isAuthenticated := false
        isTokenExpiring := false, timeUntilExpiration := 0, storage := none }
  | none =>
    { token := none, user := none, isAuthenticated := false
      isTokenExpiring := false, timeUntilExpiration := 0, storage := none }

/-- AuthContext logout: updateAuthState(null). -/
def logout (s : AuthState) (nowMs : Int) : AuthState :=
  updateAuthState s none nowMs

/-- The discriminated result returned by login and refreshToken; the success
case carries no error field. -/
structure LoginResult where
  success : Bool
  error : Option String

/-- Response body of a successful (2xx) login call: the token field may be
absent. -/
structure LoginData where
  token : Option String

/-- Error body attached to a non-2xx response: the message field may be
absent. -/
structure ErrorData where
  message : Option String

/-- Outcome of the awaited axios.post: a 2xx response with a possibly falsy
body, a rejection carrying error.response (non-2xx) whose data may be absent,
or a rejection with no response at all (network failure). -/
inductive LoginHttp where
  | ok (data : Option LoginData)
  | errorResponse (data : Option ErrorData)
  | networkError

/-- AuthContext login: on a 2xx response carrying a truthy token it calls
updateAuthState and reports success; a 2xx response without one reports the
fixed invalid-response message and leaves the state alone; every rejection is
caught and reports error.response.data.message when that is present and
truthy, else the generic message, leaving the state alone.  The catch is
total, so the call never throws. -/
def login (s : AuthState) (r : LoginHttp) (nowMs : Int) : AuthState × LoginResult :=
  match r with
  | .ok data =>
    match data with
    | some d =>
      match d.token with
      | some t =>
        if t ≠ "" then (updateAuthState s (some t) nowMs, { success := true, error := none })
        else (s, { success := false, error := some "Invalid response from server" })
      | none => (s, { success := false, error := some "Invalid response from server" })
    | none => (s, { success := false, error := some "Invalid response from server" })
  | .errorResponse data =>
    (s,
      { success := false
        error := some
          (match data with
          | some d =>
            match d.message with
            | some m => if m ≠ "" then m else "Login failed"
            | none => "Login failed"
          | none => "Login failed") })
  | .networkError => (s, { success := false, error := some "Login failed" })

/-- Index properties enumerated by spreading a string: one single-character
string per position. -/
def strIndexProps (i : Nat) : List Char → JObj
  | [] => .onil
  | c :: cs => .ocons (String.mk (natReprC i)) (.str (String.mk [c])) (strIndexProps (i + 1) cs)

/-- Index properties enumerated by spreading an array. -/
def arrIndexProps (i : Nat) : JArr → JObj
  | .anil => .onil
  | .acons v tl => .ocons (String.mk (natReprC i)) v (arrIndexProps (i + 1) tl)

/-- Own enumerable properties copied by the object spread: an object gives its
members, strings and arrays give their index properties, other primitives give
none. -/
def spreadProps : JVal → JObj
  | .obj ms => ms
  | .str s => strIndexProps 0 s.data
  | .arr xs => arrIndexProps 0 xs
  | _ => .onil

/-- AuthContext refreshToken: fails on a falsy token, fails on an undecodable
or falsy payload; then re-reads the header segment, builds the extended payload with
exp set to Math.floor(Date.now() / 1000) + 30 * 60, re-encodes both around the
original signature segment, and hands the new token to updateAuthState.  Any
throw inside (header decode, header parse, btoa on characters above 255) is
caught and reported as the generic refresh failure. -/
def refreshToken (s : AuthState) (nowMs : Int) : AuthState × LoginResult :=
  match s.token with
  | none => (s, { success := false, error := some "No token to refresh" })
  | some t =>
    if t = "" then (s, { success := false, error := some "No token to refresh" })
    else
      match decodeToken t with
      | none => (s, { success := false, error := some "Invalid token format" })
      | some payload =>
        if !jsTruthy payload then (s, { success := false, error := some "Invalid token format" })
        else
        match atobC (((splitDots t).get? 0).getD "undefined".data) with
        | none => (s, { success := false, error := some "Failed to refresh token" })
        | some headerText =>
          match jsonParse (String.mk headerText) with
          | none => (s, { success := false, error := some "Failed to refresh token" })
          | some header =>
            let newExpiration : Int := Int.fdiv nowMs 1000 + 30 * 60
            let extendedPayload : JVal :=
              .obj (setKeyO (spreadProps payload) "exp" (.num newExpiration 0))
            match btoaC (stringifyV header), btoaC (stringifyV extendedPayload) with
            | some h64, some p64 =>
              let newToken :=
                String.mk (h64 ++ '.' :: p64 ++ '.' :: ((splitDots t).get? 2).getD "undefined".data)
              (updateAuthState s (some newToken) nowMs, { success := true, error := none })
            | _, _ => (s, { success := false, error := some "Failed to refresh token" })

/-- The checkTokenExpiration closure of the watchdog effect: on an expired
token it logs out, otherwise it refreshes the two expiry fields without
touching isAuthenticated. -/
def checkTokenExpiration (s : AuthState) (nowMs : Int) : AuthState :=
  match s.token with
  | some t =>
    if isTokenExpired t nowMs then updateAuthState s none nowMs
    else
      { s with
        isTokenExpiring := willExpireSoon t nowMs 5
        timeUntilExpiration := getTimeUntilExpiration t nowMs }
  | none => s

/-- One activation of the watchdog effect: it returns immediately on a falsy
token and otherwise runs its immediate check (the recurring minute interval
repeats exactly this function). -/
def watchdogEffect (s : AuthState) (nowMs : Int) : AuthState :=
  match s.token with
  | none => s
  | some t => if t = "" then s else checkTokenExpiration s nowMs

/-- The mount-time initialization effect: re-read the stored token; a truthy
unexpired token goes through updateAuthState, a truthy expired one is only
removed from storage, a falsy one is left alone. -/
def initEffect (s : AuthState) (nowMs : Int) : AuthState :=
  match s.storage with
  | none => s
  | some t =>
    if t = "" then s
    else if !isTokenExpired t nowMs then updateAuthState s (some t) nowMs
    else { s with storage := none }

/-- The state AuthProvider starts from: the token useState initializer reads
localStorage directly, every derived field starts cleared. -/
def initialAuthState (storage : Option String) : AuthState :=
  { token := storage, user := none, isAuthenticated := false
    isTokenExpiring := false, timeUntilExpiration := 0, storage := storage }

/-- Process start: after the first render the two effects run in source
order, the watchdog (declared first, including its immediate check) and then
the initialization effect. -/
def processStart (storage : Option String) (nowMs : Int) : AuthState :=
  initEffect (watchdogEffect (initialAuthState storage) nowMs) nowMs

/-- What the RequireAuth wrapper in App.js renders. -/
inductive GuardResult where
  | render
  | redirect (replaceHistory : Bool)

/-- RequireAuth from App.js: reads the stored token directly; no token
redirects; a token whose payload segment fails to decode or parse (or is the
JSON null, whose property read throws) is removed and redirects; a truthy
numeric exp below the current epoch seconds is removed and redirects; every
other decodable payload renders the protected children.  All redirects
replace history.  The second component is the storage content after the
call. -/
def requireAuth (storage : Option String) (nowMs : Int) : GuardResult × Option String :=
  match storage with
  | none => (.redirect true, none)
  | some t =>
    if t = "" then (.redirect true, some t)
    else
      match atobC (((splitDots t).get? 1).getD "undefined".data) with
      | none => (.redirect true, none)
      | some txt =>
        match jsonParse (String.mk txt) with
        | none => (.redirect true, none)
        | some payload =>
          match payload with
          | .null => (.redirect true, none)
          | _ =>
            match jsGet payload "exp" with
            | some e =>
              if jsTruthy e then
                match toNum e with
                | some mn =>
                  if dnLtInt mn.1 mn.2 (Int.fdiv nowMs 1000) then (.redirect true, none)
                  else (.render, some t)
                | none => (.render, some t)
              else (.render, some t)
            | none => (.render, some t)

/-- The body of a base64 encoding: btoaTriples without its padding. -/
def b64Body : List Nat → List Char
  | [] => []
  | [a] => [b64Char (a / 4), b64Char (a % 4 * 16)]
  | [a, b] => [b64Char (a / 4), b64Char (a % 4 * 16 + b / 16), b64Char (b % 16 * 4)]
  | a :: b :: c :: rest =>
    b64Char (a / 4) :: b64Char (a % 4 * 16 + b / 16) :: b64Char (b % 16 * 4 + c / 64)
      :: b64Char (c % 64) :: b64Body rest

/-- The padding of a base64 encoding. -/
def b64PadOf : List Nat → List Char
  | [] => []
  | [_] => ['=', '=']
  | [_, _] => ['=']
  | _ :: _ :: _ :: rest => b64PadOf rest

/-- The sextet values of a base64 body. -/
def sexts : List Nat → List Nat
  | [] => []
  | [a] => [a / 4, a % 4 * 16]
  | [a, b] => [a / 4, a % 4 * 16 + b / 16, b % 16 * 4]
  | a :: b :: c :: rest =>
    a / 4 :: (a % 4 * 16 + b / 16) :: (b % 16 * 4 + c / 64) :: c % 64 :: sexts rest

/-- No leading character that could extend a number literal. -/
def noNumCont (cs : List Char) : Prop :=
  ∀ c, cs.head? = some c → isDigitC c = false ∧ c ≠ '.' ∧ c ≠ 'e' ∧ c ≠ 'E'

/-- The unsigned part of the number printer. -/
def absNumRepr (n : Nat) (e : Int) : List Char :=
  if e = 0 then natReprC n else natReprC n ++ 'e' :: intReprC e

mutual
/-- Fuel needed by parseVal on the serialization of a value. -/
def szV : JVal → Nat
  | .null => 1
  | .bool _ => 1
  | .num _ _ => 1
  | .str _ => 1
  | .arr xs => 1 + szA xs
  | .obj ms => 1 + szO ms
/-- Fuel needed by parseElems on serialized elements. -/
def szA : JArr → Nat
  | .anil => 1
  | .acons v tl => 1 + szV v + szA tl
/-- Fuel needed by parseMembers on serialized members. -/
def szO : JObj → Nat
  | .onil => 1
  | .ocons _ v tl => 1 + szV v + szO tl
end

/-- Whether an object has a member with the given key. -/
def hasKeyO : JObj → String → Bool
  | .onil, _ => false
  | .ocons k0 _ tl, k => k0 = k || hasKeyO tl k

mutual
/-- Well-formed parsed values: object keys are duplicate-free at every level.
Every value produced by the parser satisfies this (it builds objects with
setKeyO), and the serializer is injective on this fragment. -/
def wfV : JVal → Bool
  | .null => true
  | .bool _ => true
  | .num _ _ => true
  | .str _ => true
  | .arr xs => wfA xs
  | .obj ms => wfO ms
/-- Well-formedness of array elements. -/
def wfA : JArr → Bool
  | .anil => true
  | .acons v tl => wfV v && wfA tl
/-- Well-formedness of object members. -/
def wfO : JObj → Bool
  | .onil => true
  | .ocons k v tl => !hasKeyO tl k && wfV v && wfO tl
end

/-- Fold JavaScript property assignment over a member list. -/
def setKeyAll : JObj → JObj → JObj
  | acc, .onil => acc
  | acc, .ocons k v tl => setKeyAll (setKeyO acc k v) tl

/-- Append an array spine onto an accumulator, element by element. -/
def appendA : JArr → JArr → JArr
  | acc, .anil => acc
  | acc, .acons v tl => appendA (snocA acc v) tl

/-- Spine length of an object member list, used for structural induction over
a single mutual component. -/
def objSpine : JObj → Nat
  | .onil => 0
  | .ocons _ _ tl => 1 + objSpine tl

/-- Spine length of an array element list. -/
def arrSpine : JArr → Nat
  | .anil => 0
  | .acons _ tl => 1 + arrSpine tl

/-- The tail of the route guard once the payload has been parsed. -/
def guardStage2 (t : String) (nowMs : Int) (payload : JVal) : GuardResult × Option String :=
  match payload with
  | .null => (.redirect true, none)
  | _ =>
    match jsGet payload "exp" with
    | some e =>
      if jsTruthy e then
        match toNum e with
        | some mn =>
          if dnLtInt mn.1 mn.2 (Int.fdiv nowMs 1000) then (.redirect true, none)
          else (.render, some t)
        | none => (.render, some t)
      else (.render, some t)
    | none => (.render, some t)

/-! Arithmetic bridge: the integer-only comparisons used by the embedded code
agree with the exact rational value of a decimal number. -/

theorem dnVal_intCast (m : Int) : dnVal m 0 = (m : ℚ) := by
  simp [dnVal]

theorem dnLtInt_iff (m e c : Int) : dnLtInt m e c = true ↔ dnVal m e < (c : ℚ) := by
  unfold dnLtInt dnVal
  split
  · rw [decide_eq_true_eq]
    exact_mod_cast Iff.rfl
  · rw [decide_eq_true_eq]
    have hpos : (0 : ℚ) < ((10 ^ (-e).toNat : Int) : ℚ) := by positivity
    rw [div_lt_iff hpos]
    exact_mod_cast Iff.rfl

theorem dnLeInt_iff (m e c : Int) : dnLeInt m e c = true ↔ dnVal m e ≤ (c : ℚ) := by
  unfold dnLeInt dnVal
  split
  · rw [decide_eq_true_eq]
    exact_mod_cast Iff.rfl
  · rw [decide_eq_true_eq]
    have hpos : (0 : ℚ) < ((10 ^ (-e).toNat : Int) : ℚ) := by positivity
    rw [div_le_iff hpos]
    exact_mod_cast Iff.rfl

theorem floor_intCast_div (a b : Int) (hb : 0 < b) :
    ⌊(a : ℚ) / (b : ℚ)⌋ = Int.fdiv a b := by
  obtain ⟨d, rfl⟩ : ∃ d : ℕ, b = (d : ℤ) := ⟨b.toNat, (Int.toNat_of_nonneg hb.le).symm⟩
  have h1 : ((d : Int) : ℚ) = ((d : ℕ) : ℚ) := by push_cast; ring
  rw [h1, Rat.floor_intCast_div_natCast a d, Int.fdiv_eq_ediv _ (by positivity)]

theorem timeLeftMinutes_eq (bigM e nowMs : Int) :
    timeLeftMinutes bigM e nowMs = ⌊(dnVal bigM e - (nowMs : ℚ)) / 60000⌋ := by
  unfold timeLeftMinutes dnVal
  split
  · rw [← floor_intCast_div _ 60000 (by norm_num)]
    congr 1
    push_cast
    ring
  · have hpos : (0 : ℚ) < ((10 : ℚ) ^ (-e).toNat) := by positivity
    rw [← floor_intCast_div _ (60000 * 10 ^ (-e).toNat) (by positivity)]
    congr 1
    push_cast
    field_simp
    ring

/-! Base64 roundtrip: atob inverts btoa on byte strings. -/

theorem b64Index_b64Char : ∀ n < 64, b64Index (b64Char n) = some n := by decide

theorem b64Char_not_ws : ∀ n < 64, isB64Ws (b64Char n) = false := by decide

theorem b64Char_ne_pad : ∀ n < 64, b64Char n ≠ '=' := by decide

theorem b64Char_ne_dot : ∀ n < 64, b64Char n ≠ '.' := by decide

theorem btoaTriples_eq_body_pad (bs : List Nat) :
    btoaTriples bs = b64Body bs ++ b64PadOf bs := by
  induction bs using btoaTriples.induct <;> simp [btoaTriples, b64Body, b64PadOf, *]

theorem btoaTriples_filter (bs : List Nat) (h : ∀ b ∈ bs, b < 256) :
    (btoaTriples bs).filter (fun c => !isB64Ws c) = btoaTriples bs := by
  induction bs using btoaTriples.induct with
  | case1 => simp [btoaTriples]
  | case2 a =>
    have h1 := b64Char_not_ws (a / 4) (by have := h a (by simp); omega)
    have h2 := b64Char_not_ws (a % 4 * 16) (by have := h a (by simp); omega)
    simp [btoaTriples, List.filter, h1, h2]
    decide
  | case3 a b =>
    have ha := h a (by simp)
    have hb := h b (by simp)
    have h1 := b64Char_not_ws (a / 4) (by omega)
    have h2 := b64Char_not_ws (a % 4 * 16 + b / 16) (by omega)
    have h3 := b64Char_not_ws (b % 16 * 4) (by omega)
    simp [btoaTriples, List.filter, h1, h2, h3]
    decide
  | case4 a b c rest ih =>
    have ha := h a (by simp)
    have hb := h b (by simp)
    have hc := h c (by simp)
    have h1 := b64Char_not_ws (a / 4) (by omega)
    have h2 := b64Char_not_ws (a % 4 * 16 + b / 16) (by omega)
    have h3 := b64Char_not_ws (b % 16 * 4 + c / 64) (by omega)
    have h4 := b64Char_not_ws (c % 64) (by omega)
    have ih2 := ih (fun x hx => h x (by simp [hx]))
    simp [btoaTriples, List.filter, h1, h2, h3, h4] at ih2 ⊢
    exact ih2

theorem btoaTriples_len_mod (bs : List Nat) : (btoaTriples bs).length % 4 = 0 := by
  induction bs using btoaTriples.induct <;> simp [btoaTriples, *] <;> omega

theorem stripPad_of_rev_pad2 (cs r : List Char) (h : cs.reverse = '=' :: '=' :: r) :
    stripPad cs = r.reverse := by
  unfold stripPad
  rw [h]
  rfl

theorem stripPad_of_rev_pad1 (cs : List Char) (w2 : Char) (ws : List Char)
    (h : cs.reverse = '=' :: w2 :: ws) (hne : w2 ≠ '=') :
    stripPad cs = (w2 :: ws).reverse := by
  unfold stripPad
  rw [h]
  split
  · rename_i r heq
    injection heq with _ heq2
    injection heq2 with hw2 _
    exact absurd hw2 hne
  · rename_i r heq
    injection heq with _ heq2
    rw [heq2]
  · rename_i hno
    exact absurd rfl (hno (w2 :: ws))

theorem stripPad_of_rev_nopad (cs : List Char) (w : Char) (ws : List Char)
    (h : cs.reverse = w :: ws) (hne : w ≠ '=') : stripPad cs = cs := by
  unfold stripPad
  rw [h]
  split
  · rename_i r heq
    injection heq with hw _
    exact absurd hw hne
  · rename_i r heq
    injection heq with hw _
    exact absurd hw hne
  · have := congrArg List.reverse h
    simpa using this.symm

theorem stripPad_append (xs ys : List Char) (h : 2 ≤ ys.length) :
    stripPad (xs ++ ys) = xs ++ stripPad ys := by
  match ys, h with
  | y1 :: y2 :: zs, _ =>
    obtain ⟨w1, w2, ws, hw⟩ : ∃ w1 w2 ws, (y1 :: y2 :: zs).reverse = w1 :: w2 :: ws := by
      have hlen : 2 ≤ (y1 :: y2 :: zs).reverse.length := by simp
      match hrw : (y1 :: y2 :: zs).reverse, hlen with
      | w1 :: w2 :: ws, _ => exact ⟨w1, w2, ws, rfl⟩
    have hrev : (xs ++ (y1 :: y2 :: zs)).reverse = w1 :: w2 :: (ws ++ xs.reverse) := by
      simp [hw]
    by_cases hw1 : w1 = '='
    · by_cases hw2 : w2 = '='
      · subst hw1; subst hw2
        rw [stripPad_of_rev_pad2 _ _ hrev, stripPad_of_rev_pad2 _ _ hw]
        simp
      · subst hw1
        rw [stripPad_of_rev_pad1 _ _ _ hrev hw2, stripPad_of_rev_pad1 _ _ _ hw hw2]
        simp
    · rw [stripPad_of_rev_nopad _ _ _ hrev hw1, stripPad_of_rev_nopad _ _ _ hw hw1]

theorem b64Body_last_ne_pad (bs : List Nat) (h : ∀ b ∈ bs, b < 256) :
    ∀ c ∈ b64Body bs, c ≠ '=' := by
  induction bs using b64Body.induct with
  | case1 => simp [b64Body]
  | case2 a =>
    have ha := h a (by simp)
    have h1 := b64Char_ne_pad (a / 4) (by omega)
    have h2 := b64Char_ne_pad (a % 4 * 16) (by omega)
    simp [b64Body]
    exact ⟨h1, h2⟩
  | case3 a b =>
    have ha := h a (by simp)
    have hb := h b (by simp)
    simp [b64Body]
    exact ⟨b64Char_ne_pad _ (by omega), b64Char_ne_pad _ (by omega), b64Char_ne_pad _ (by omega)⟩
  | case4 a b c rest ih =>
    have ha := h a (by simp)
    have hb := h b (by simp)
    have hc := h c (by simp)
    have ih2 := ih (fun x hx => h x (by simp [hx]))
    simp [b64Body]
    refine ⟨b64Char_ne_pad _ (by omega), b64Char_ne_pad _ (by omega),
      b64Char_ne_pad _ (by omega), b64Char_ne_pad _ (by omega), ?_⟩
    intro x hx
    exact ih2 x hx

theorem btoaTriples_len_ge (bs : List Nat) (h : bs ≠ []) : 2 ≤ (btoaTriples bs).length := by
  match bs, h with
  | [a], _ => simp [btoaTriples]
  | [a, b], _ => simp [btoaTriples]
  | a :: b :: c :: rest, _ => simp [btoaTriples]

theorem stripPad_btoa (bs : List Nat) (h : ∀ b ∈ bs, b < 256) :
    stripPad (btoaTriples bs) = b64Body bs := by
  induction bs using btoaTriples.induct with
  | case1 => rfl
  | case2 a =>
    have : (btoaTriples [a]).reverse
        = '=' :: '=' :: [b64Char (a % 4 * 16), b64Char (a / 4)] := by
      simp [btoaTriples]
    rw [stripPad_of_rev_pad2 _ _ this]
    simp [b64Body]
  | case3 a b =>
    have hb := h b (by simp)
    have hne := b64Char_ne_pad (b % 16 * 4) (by omega)
    have : (btoaTriples [a, b]).reverse
        = '=' :: b64Char (b % 16 * 4)
            :: [b64Char (a % 4 * 16 + b / 16), b64Char (a / 4)] := by
      simp [btoaTriples]
    rw [stripPad_of_rev_pad1 _ _ _ this hne]
    simp [b64Body]
  | case4 a b c rest ih =>
    have hc := h c (by simp)
    have hne := b64Char_ne_pad (c % 64) (by omega)
    by_cases hr : rest = []
    · subst hr
      have : (btoaTriples [a, b, c]).reverse
          = b64Char (c % 64) :: [b64Char (b % 16 * 4 + c / 64),
              b64Char (a % 4 * 16 + b / 16), b64Char (a / 4)] := by
        simp [btoaTriples]
      rw [stripPad_of_rev_nopad _ _ _ this hne]
      simp [btoaTriples, b64Body]
    · have ih2 := ih (fun x hx => h x (by simp [hx]))
      have hquad : btoaTriples (a :: b :: c :: rest)
          = [b64Char (a / 4), b64Char (a % 4 * 16 + b / 16), b64Char (b % 16 * 4 + c / 64),
              b64Char (c % 64)] ++ btoaTriples rest := by
        simp [btoaTriples]
      rw [hquad, stripPad_append _ _ (btoaTriples_len_ge rest hr), ih2]
      simp [b64Body]

theorem b64Body_len_mod (bs : List Nat) : (b64Body bs).length % 4 ≠ 1 := by
  induction bs using b64Body.induct <;> simp [b64Body, *] <;> omega

theorem b64Indexes_body (bs : List Nat) (h : ∀ b ∈ bs, b < 256) :
    b64Indexes (b64Body bs) = some (sexts bs) := by
  induction bs using b64Body.induct with
  | case1 => rfl
  | case2 a =>
    have ha := h a (by simp)
    have e1 := b64Index_b64Char (a / 4) (by omega)
    have e2 := b64Index_b64Char (a % 4 * 16) (by omega)
    simp [b64Body, b64Indexes, sexts, e1, e2]
  | case3 a b =>
    have ha := h a (by simp)
    have hb := h b (by simp)
    have e1 := b64Index_b64Char (a / 4) (by omega)
    have e2 := b64Index_b64Char (a % 4 * 16 + b / 16) (by omega)
    have e3 := b64Index_b64Char (b % 16 * 4) (by omega)
    simp [b64Body, b64Indexes, sexts, e1, e2, e3]
  | case4 a b c rest ih =>
    have ha := h a (by simp)
    have hb := h b (by simp)
    have hc := h c (by simp)
    have e1 := b64Index_b64Char (a / 4) (by omega)
    have e2 := b64Index_b64Char (a % 4 * 16 + b / 16) (by omega)
    have e3 := b64Index_b64Char (b % 16 * 4 + c / 64) (by omega)
    have e4 := b64Index_b64Char (c % 64) (by omega)
    have ih2 := ih (fun x hx => h x (by simp [hx]))
    simp [b64Body, b64Indexes, sexts, e1, e2, e3, e4, ih2]

theorem atobQuads_sexts (bs : List Nat) (h : ∀ b ∈ bs, b < 256) :
    atobQuads (sexts bs) = some bs := by
  induction bs using sexts.induct with
  | case1 => rfl
  | case2 a =>
    have ha := h a (by simp)
    simp [sexts, atobQuads]
    omega
  | case3 a b =>
    have ha := h a (by simp)
    have hb := h b (by simp)
    simp [sexts, atobQuads]
    constructor <;> omega
  | case4 a b c rest ih =>
    have ha := h a (by simp)
    have hb := h b (by simp)
    have hc := h c (by simp)
    have ih2 := ih (fun x hx => h x (by simp [hx]))
    simp [sexts, atobQuads, ih2]
    refine ⟨by omega, by omega, by omega⟩

theorem atobC_btoaC (cs bts : List Char) (h : btoaC cs = some bts) : atobC bts = some cs := by
  unfold btoaC at h
  by_cases hall : cs.all (fun c => c.toNat < 256) = true
  · rw [if_pos hall, Option.some_inj] at h
    subst h
    have hbs : ∀ b ∈ cs.map Char.toNat, b < 256 := by
      intro b hb
      obtain ⟨c, hc, rfl⟩ := List.mem_map.mp hb
      exact of_decide_eq_true (List.all_eq_true.mp hall c hc)
    have h1 := btoaTriples_filter _ hbs
    have h2 := btoaTriples_len_mod (cs.map Char.toNat)
    have h3 := stripPad_btoa _ hbs
    have h4 := b64Body_len_mod (cs.map Char.toNat)
    have h5 := b64Indexes_body _ hbs
    have h6 := atobQuads_sexts _ hbs
    unfold atobC
    simp only [h1, h2, if_pos, h3, if_neg h4, h5, h6]
    simp only [List.map_map]
    have hco : Char.ofNat ∘ Char.toNat = id := funext Char.ofNat_toNat
    rw [hco, List.map_id]
  · rw [if_neg hall] at h
    exact absurd h (by simp)

/-! Decimal roundtrip: the number printer reparses to the same value. -/

theorem digitsVal_append (xs : List Char) (c : Char) :
    digitsVal (xs ++ [c]) = digitsVal xs * 10 + digitVal c := by
  simp [digitsVal, List.foldl_append]

theorem digitCh_facts :
    ∀ n < 10, isDigitC (digitCh n) = true ∧ digitVal (digitCh n) = n ∧
      (digitCh n = '0' ↔ n = 0) := by decide

theorem natDigitsAux_spec :
    ∀ f n, n < f →
      (∀ c ∈ natDigitsAux f n, isDigitC c = true) ∧
      digitsVal (natDigitsAux f n) = n ∧
      (∃ d ds, natDigitsAux f n = d :: ds ∧ (d = '0' → n = 0)) := by
  intro f
  induction f with
  | zero => intro n hn; omega
  | succ f ih =>
    intro n hn
    by_cases h10 : n < 10
    · obtain ⟨hdig, hval, hzero⟩ := digitCh_facts n h10
      refine ⟨?_, ?_, digitCh n, [], ?_, ?_⟩
      · intro c hc
        simp [natDigitsAux, h10] at hc
        rw [hc]; exact hdig
      · simp [natDigitsAux, h10, digitsVal, hval]
      · simp [natDigitsAux, h10]
      · intro h0; exact hzero.mp h0
    · have hstep : natDigitsAux (f + 1) n = natDigitsAux f (n / 10) ++ [digitCh (n % 10)] := by
        simp [natDigitsAux, h10]
      have hlt : n / 10 < f := by omega
      obtain ⟨hall, hval, d, ds, hds, hzero⟩ := ih (n / 10) hlt
      obtain ⟨hdig2, hval2, _⟩ := digitCh_facts (n % 10) (by omega)
      refine ⟨?_, ?_, d, ds ++ [digitCh (n % 10)], ?_, ?_⟩
      · intro c hc
        rw [hstep] at hc
        rcases List.mem_append.mp hc with h | h
        · exact hall c h
        · simp at h; rw [h]; exact hdig2
      · rw [hstep, digitsVal_append, hval, hval2]; omega
      · rw [hstep, hds]; simp
      · intro h0
        have := hzero h0
        omega

theorem takeDigits_split (ds rest : List Char) (hds : ∀ c ∈ ds, isDigitC c = true)
    (hrest : ∀ c, rest.head? = some c → isDigitC c = false) :
    takeDigits (ds ++ rest) = (ds, rest) := by
  induction ds with
  | nil =>
    cases rest with
    | nil => rfl
    | cons c r => simp [takeDigits, hrest c rfl]
  | cons d ds ih =>
    have hd := hds d (by simp)
    have ih2 := ih (fun c hc => hds c (by simp [hc]))
    simp [takeDigits, hd, ih2]

theorem parseIntPart_repr (n : Nat) (rest : List Char)
    (hrest : ∀ c, rest.head? = some c → isDigitC c = false) :
    parseIntPart (natReprC n ++ rest) = some (n, rest) := by
  obtain ⟨hall, hval, d, ds, hds, hzero⟩ := natDigitsAux_spec (n + 1) n (Nat.lt_succ_self n)
  have hds' : natReprC n = d :: ds := hds
  have ht : takeDigits (natReprC n ++ rest) = (d :: ds, rest) := by
    rw [← hds']
    exact takeDigits_split _ _ hall hrest
  unfold parseIntPart
  rw [ht]
  show (if d = '0' ∧ ds ≠ [] then none else some (digitsVal (d :: ds), rest)) = some (n, rest)
  have hcond : ¬(d = '0' ∧ ds ≠ []) := by
    intro hcon
    have hn0 : n = 0 := hzero hcon.1
    subst hn0
    have h01 : d :: ds = ['0'] := by rw [← hds']; rfl
    have : ds = [] := by
      injection h01 with _ h2
    exact hcon.2 this
  rw [if_neg hcond, ← hds']
  have hvn : digitsVal (natReprC n) = n := hval
  rw [hvn]

theorem digit_not_special :
    ∀ c : Char, isDigitC c = true →
      isJsonWs c = false ∧ c ≠ '\x7b' ∧ c ≠ '[' ∧ c ≠ '"' ∧ c ≠ 't' ∧ c ≠ 'f' ∧ c ≠ 'n' ∧
      c ≠ '-' ∧ c ≠ '.' ∧ c ≠ 'e' ∧ c ≠ 'E' ∧ c ≠ '+' ∧ c ≠ ',' ∧ c ≠ '\x7d' ∧ c ≠ ']' := by
  intro c h
  unfold isDigitC at h
  rw [Bool.and_eq_true, decide_eq_true_eq, decide_eq_true_eq] at h
  refine ⟨?_, ?_, ?_, ?_, ?_, ?_, ?_, ?_, ?_, ?_, ?_, ?_, ?_, ?_, ?_⟩
  · have h1 : c ≠ ' ' := by intro he; subst he; revert h; decide
    have h2 : c ≠ '\t' := by intro he; subst he; revert h; decide
    have h3 : c ≠ '\n' := by intro he; subst he; revert h; decide
    have h4 : c ≠ '\r' := by intro he; subst he; revert h; decide
    simp [isJsonWs, h1, h2, h3, h4]
  all_goals intro he; subst he; revert h; decide

theorem natRepr_head_digit (n : Nat) :
    ∃ d ds, natReprC n = d :: ds ∧ isDigitC d = true ∧ (∀ c ∈ natReprC n, isDigitC c = true) := by
  obtain ⟨hall, _, d, ds, hds, _⟩ := natDigitsAux_spec (n + 1) n (Nat.lt_succ_self n)
  exact ⟨d, ds, hds, hall d (by rw [hds]; simp), hall⟩

theorem parseFracPart_nofrac (cs : List Char) (h : ∀ c, cs.head? = some c → c ≠ '.') :
    parseFracPart cs = some (0, 0, cs) := by
  cases cs with
  | nil => rfl
  | cons c r => simp [parseFracPart, h c rfl]

theorem parseExpPart_noexp (cs : List Char) (h : ∀ c, cs.head? = some c → c ≠ 'e' ∧ c ≠ 'E') :
    parseExpPart cs = some (0, cs) := by
  cases cs with
  | nil => rfl
  | cons c r =>
    have hc := h c rfl
    simp [parseExpPart, hc.1, hc.2]

theorem parseExpDigits_repr (sign : Int) (n : Nat) (rest : List Char)
    (hrest : ∀ c, rest.head? = some c → isDigitC c = false) :
    parseExpDigits sign (natReprC n ++ rest) = some (sign * n, rest) := by
  obtain ⟨hall, hval, d, ds, hds, _⟩ := natDigitsAux_spec (n + 1) n (Nat.lt_succ_self n)
  have hds' : natReprC n = d :: ds := hds
  have ht : takeDigits (natReprC n ++ rest) = (d :: ds, rest) := by
    rw [← hds']
    exact takeDigits_split _ _ hall hrest
  unfold parseExpDigits
  rw [ht]
  show some (sign * (digitsVal (d :: ds) : Int), rest) = some (sign * n, rest)
  rw [← hds']
  have hvn : digitsVal (natReprC n) = n := hval
  rw [hvn]

theorem parseNumAbs_abs (n : Nat) (e : Int) (rest : List Char) (h : noNumCont rest) :
    parseNumAbs (absNumRepr n e ++ rest) = some (((n : Int), e), rest) := by
  by_cases he : e = 0
  · subst he
    have h1 : parseIntPart (natReprC n ++ rest) = some (n, rest) :=
      parseIntPart_repr n rest (fun c hc => (h c hc).1)
    have h2 : parseFracPart rest = some (0, 0, rest) :=
      parseFracPart_nofrac rest (fun c hc => (h c hc).2.1)
    have h3 : parseExpPart rest = some (0, rest) :=
      parseExpPart_noexp rest (fun c hc => ⟨(h c hc).2.2.1, (h c hc).2.2.2⟩)
    unfold absNumRepr
    rw [if_pos rfl]
    unfold parseNumAbs
    simp [h1, h2, h3]
  · have hinput : absNumRepr n e ++ rest = natReprC n ++ 'e' :: (intReprC e ++ rest) := by
      unfold absNumRepr
      rw [if_neg he]
      simp
    have h1 : parseIntPart (natReprC n ++ 'e' :: (intReprC e ++ rest)) =
        some (n, 'e' :: (intReprC e ++ rest)) := by
      apply parseIntPart_repr
      intro c hc
      simp at hc
      subst hc
      decide
    have h2 : parseFracPart ('e' :: (intReprC e ++ rest)) =
        some (0, 0, 'e' :: (intReprC e ++ rest)) := by
      apply parseFracPart_nofrac
      intro c hc
      simp at hc
      subst hc
      decide
    have hdig : ∀ c, rest.head? = some c → isDigitC c = false := fun c hc => (h c hc).1
    have h3 : parseExpPart ('e' :: (intReprC e ++ rest)) = some (e, rest) := by
      by_cases hneg : e < 0
      · have hie : intReprC e = '-' :: natReprC e.natAbs := by
          unfold intReprC
          rw [if_pos hneg]
        have hstep := parseExpDigits_repr (-1) e.natAbs rest hdig
        have habs : (-1 : Int) * (e.natAbs : Int) = e := by omega
        rw [hie]
        simp only [List.cons_append]
        simp [parseExpPart]
        rw [hstep, habs]
      · have hie : intReprC e = natReprC e.natAbs := by
          unfold intReprC
          rw [if_neg hneg]
        obtain ⟨d, ds, hds, hd, _⟩ := natRepr_head_digit e.natAbs
        obtain ⟨_, _, _, _, _, _, _, hm, _, _, _, hp, _, _, _⟩ := digit_not_special d hd
        have hstep := parseExpDigits_repr 1 e.natAbs rest hdig
        have habs : (1 : Int) * (e.natAbs : Int) = e := by omega
        rw [hie, hds]
        simp only [List.cons_append]
        simp [parseExpPart, hp, hm]
        have hback : d :: (ds ++ rest) = natReprC e.natAbs ++ rest := by
          rw [hds]
          simp
        rw [hback, hstep, habs]
    rw [hinput]
    unfold parseNumAbs
    simp [h1, h2, h3]

theorem numReprC_decomp (m e : Int) :
    numReprC m e = (if m < 0 then ['-'] else []) ++ absNumRepr m.natAbs e := by
  by_cases hm : m < 0 <;> by_cases he : e = 0 <;>
    simp [numReprC, intReprC, absNumRepr, hm, he]

theorem parseNum_repr (m e : Int) (rest : List Char) (h : noNumCont rest) :
    parseNum (numReprC m e ++ rest) = some ((m, e), rest) := by
  rw [numReprC_decomp]
  have hs := parseNumAbs_abs m.natAbs e rest h
  by_cases hm : m < 0
  · simp only [if_pos hm, List.cons_append, List.nil_append]
    simp [parseNum, hs]
    rw [abs_of_neg hm]
    ring
  · obtain ⟨d, ds2, hds2, hd⟩ : ∃ d ds2, absNumRepr m.natAbs e = d :: ds2 ∧ isDigitC d = true := by
      obtain ⟨d, ds, hds, hd, _⟩ := natRepr_head_digit m.natAbs
      unfold absNumRepr
      by_cases he : e = 0
      · exact ⟨d, ds, by rw [if_pos he, hds], hd⟩
      · exact ⟨d, ds ++ 'e' :: intReprC e, by rw [if_neg he, hds]; simp, hd⟩
    obtain ⟨_, _, _, _, _, _, _, hm2, _⟩ := digit_not_special d hd
    have habs : ((m.natAbs : Int)) = m := by omega
    have hback : d :: (ds2 ++ rest) = absNumRepr m.natAbs e ++ rest := by
      rw [hds2]
      simp
    simp only [if_neg hm, List.nil_append]
    rw [hds2]
    simp only [List.cons_append]
    simp [parseNum, hm2]
    rw [hback, hs, habs]

/-! String roundtrip: quoted and escaped strings reparse to themselves. -/

theorem hexVal_hexDigitCh : ∀ n < 16, hexVal (hexDigitCh n) = some n := by decide

theorem parseStrBody_uescape (f' : Nat) (t : Nat) (hlt : t < 32) (tail : List Char) :
    parseStrBody (f' + 1) ('\\' :: 'u' :: '0' :: '0' :: hexDigitCh (t / 16)
      :: hexDigitCh (t % 16) :: tail)
      = match parseStrBody f' tail with
        | some (s, r) => some (Char.ofNat t :: s, r)
        | none => none := by
  have hx1 := hexVal_hexDigitCh (t / 16) (by omega)
  have hx2 := hexVal_hexDigitCh (t % 16) (by omega)
  have hcode : ((0 * 16 + 0) * 16 + t / 16) * 16 + t % 16 = t := by omega
  have h0 : hexVal '0' = some 0 := by decide
  simp only [parseStrBody, parseHex4, hx1, hx2, h0, if_true]
  simp only [hcode]
  rw [if_neg (show ¬(55296 ≤ t ∧ t ≤ 56319) by omega)]
  rw [if_neg (show ¬(56320 ≤ t ∧ t ≤ 57343) by omega)]
  rw [if_neg (show ¬(('\\' : Char) = '"') by decide)]

theorem parseStrBody_quote (s : List Char) :
    ∀ rest f, (quoteBody s).length < f →
      parseStrBody f (quoteBody s ++ '"' :: rest) = some (s, rest) := by
  induction s with
  | nil =>
    intro rest f hf
    match f, hf with
    | f' + 1, _ =>
      simp [quoteBody, parseStrBody]
  | cons c s ih =>
    intro rest f hf
    have hesc : quoteBody (c :: s) = escSeq c ++ quoteBody s := rfl
    rw [hesc] at hf ⊢
    have hlen1 : 1 ≤ (escSeq c).length := by
      unfold escSeq
      repeat' split
      all_goals simp
    match f, (show 1 ≤ f by simp [List.length_append] at hf; omega) with
    | f' + 1, _ =>
    have hih : (quoteBody s).length < f' := by
      simp [List.length_append] at hf
      omega
    by_cases hq : c = '"'
    · subst hq
      have he : escSeq '"' = ['\\', '"'] := by decide
      rw [he]
      simp only [List.cons_append, List.nil_append]
      simp [parseStrBody, escCharOf, ih rest f' hih]
    · by_cases hb : c = '\\'
      · subst hb
        have he : escSeq '\\' = ['\\', '\\'] := by decide
        rw [he]
        simp only [List.cons_append, List.nil_append]
        simp [parseStrBody, escCharOf, ih rest f' hih]
      · by_cases h8 : c.toNat = 8
        · have he : escSeq c = ['\\', 'b'] := by
            unfold escSeq
            rw [if_neg hq, if_neg hb, if_pos h8]
          have hc : Char.ofNat 8 = c := by rw [← h8, Char.ofNat_toNat]
          rw [he]
          simp only [List.cons_append, List.nil_append]
          simp [parseStrBody, escCharOf, ih rest f' hih]
          exact hc
        · by_cases h9 : c.toNat = 9
          · have he : escSeq c = ['\\', 't'] := by
              unfold escSeq
              rw [if_neg hq, if_neg hb, if_neg h8, if_pos h9]
            have hc : ('\t' : Char) = c := by
              have hcc := Char.ofNat_toNat c
              rw [h9] at hcc
              exact hcc
            rw [he]
            simp only [List.cons_append, List.nil_append]
            simp [parseStrBody, escCharOf, ih rest f' hih]
            exact hc
          · by_cases h10 : c.toNat = 10
            · have he : escSeq c = ['\\', 'n'] := by
                unfold escSeq
                rw [if_neg hq, if_neg hb, if_neg h8, if_neg h9, if_pos h10]
              have hc : ('\n' : Char) = c := by
                have hcc := Char.ofNat_toNat c
                rw [h10] at hcc
                exact hcc
              rw [he]
              simp only [List.cons_append, List.nil_append]
              simp [parseStrBody, escCharOf, ih rest f' hih]
              exact hc
            · by_cases h12 : c.toNat = 12
              · have he : escSeq c = ['\\', 'f'] := by
                  unfold escSeq
                  rw [if_neg hq, if_neg hb, if_neg h8, if_neg h9, if_neg h10, if_pos h12]
                have hc : Char.ofNat 12 = c := by rw [← h12, Char.ofNat_toNat]
                rw [he]
                simp only [List.cons_append, List.nil_append]
                simp [parseStrBody, escCharOf, ih rest f' hih]
                exact hc
              · by_cases h13 : c.toNat = 13
                · have he : escSeq c = ['\\', 'r'] := by
                    unfold escSeq
                    rw [if_neg hq, if_neg hb, if_neg h8, if_neg h9, if_neg h10, if_neg h12,
                      if_pos h13]
                  have hc : ('\r' : Char) = c := by
                    have hcc := Char.ofNat_toNat c
                    rw [h13] at hcc
                    exact hcc
                  rw [he]
                  simp only [List.cons_append, List.nil_append]
                  simp [parseStrBody, escCharOf, ih rest f' hih]
                  exact hc
                · by_cases hlt : c.toNat < 32
                  · have he : escSeq c = ['\\', 'u', '0', '0', hexDigitCh (c.toNat / 16),
                        hexDigitCh (c.toNat % 16)] := by
                      unfold escSeq
                      rw [if_neg hq, if_neg hb, if_neg h8, if_neg h9, if_neg h10, if_neg h12,
                        if_neg h13, if_pos hlt]
                    rw [he]
                    simp only [List.cons_append, List.nil_append]
                    rw [parseStrBody_uescape f' c.toNat hlt, ih rest f' hih]
                    simp [Char.ofNat_toNat]
                  · have he : escSeq c = [c] := by
                      unfold escSeq
                      rw [if_neg hq, if_neg hb, if_neg h8, if_neg h9, if_neg h10, if_neg h12,
                        if_neg h13, if_neg hlt]
                    rw [he]
                    simp only [List.cons_append, List.nil_append]
                    simp [parseStrBody, hq, hb, hlt, ih rest f' hih]

/-! JSON roundtrip: parsing a serialized well-formed value gives it back. -/

theorem setKeyAll_push (k : String) (v : JVal) (acc2 tl : JObj)
    (h : hasKeyO tl k = false) :
    setKeyAll (.ocons k v acc2) tl = .ocons k v (setKeyAll acc2 tl) := by
  induction tl using objSpine.induct generalizing acc2 with
  | case1 => rfl
  | case2 k2 v2 tl2 ih =>
    have hk : k ≠ k2 := by
      simp [hasKeyO, Bool.or_eq_false_iff] at h
      exact fun he => h.1 he.symm
    have htl : hasKeyO tl2 k = false := by
      simp [hasKeyO, Bool.or_eq_false_iff] at h
      exact h.2
    show setKeyAll (setKeyO (.ocons k v acc2) k2 v2) tl2 = _
    rw [show setKeyO (JObj.ocons k v acc2) k2 v2 = .ocons k v (setKeyO acc2 k2 v2) from by
      simp [setKeyO, hk]]
    rw [ih _ htl]
    rfl

theorem wfO_cons_parts (k : String) (v : JVal) (tl : JObj)
    (h : wfO (.ocons k v tl) = true) :
    hasKeyO tl k = false ∧ wfV v = true ∧ wfO tl = true := by
  rw [show wfO (.ocons k v tl) = (!hasKeyO tl k && wfV v && wfO tl) from rfl] at h
  rw [Bool.and_eq_true, Bool.and_eq_true, Bool.not_eq_true'] at h
  exact ⟨h.1.1, h.1.2, h.2⟩

theorem setKeyAll_onil (ms : JObj) (h : wfO ms = true) : setKeyAll .onil ms = ms := by
  induction ms using objSpine.induct with
  | case1 => rfl
  | case2 k v tl ih =>
    obtain ⟨hkey, _, htl⟩ := wfO_cons_parts k v tl h
    show setKeyAll (setKeyO .onil k v) tl = _
    rw [show setKeyO .onil k v = JObj.ocons k v .onil from rfl]
    rw [setKeyAll_push k v .onil tl hkey, ih htl]

theorem appendA_acons (h : JVal) (t xs : JArr) :
    appendA (.acons h t) xs = .acons h (appendA t xs) := by
  induction xs using arrSpine.induct generalizing t with
  | case1 => rfl
  | case2 v tl ih =>
    show appendA (snocA (.acons h t) v) tl = _
    rw [show snocA (JArr.acons h t) v = .acons h (snocA t v) from rfl, ih]
    rfl

theorem appendA_anil (xs : JArr) : appendA .anil xs = xs := by
  induction xs using arrSpine.induct with
  | case1 => rfl
  | case2 v tl ih =>
    show appendA (snocA .anil v) tl = _
    rw [show snocA .anil v = JArr.acons v .anil from rfl, appendA_acons]
    rw [show appendA JArr.anil tl = tl from ih]

theorem szV_pos (v : JVal) : 1 ≤ szV v := by
  cases v <;> simp [szV]

theorem szO_pos (ms : JObj) : 1 ≤ szO ms := by
  cases ms <;> simp [szO] <;> omega

theorem szA_pos (xs : JArr) : 1 ≤ szA xs := by
  cases xs <;> simp [szA] <;> omega

theorem skipWs_cons_of_not (c : Char) (t : List Char) (h : isJsonWs c = false) :
    skipWs (c :: t) = c :: t := by
  simp [skipWs, h]

theorem noNumCont_cons (c : Char) (t : List Char)
    (h : isDigitC c = false ∧ c ≠ '.' ∧ c ≠ 'e' ∧ c ≠ 'E') : noNumCont (c :: t) := by
  intro d hd
  simp at hd
  subst hd
  exact h

theorem stringifyV_head (v : JVal) :
    ∃ c t2, stringifyV v = c :: t2 ∧ isJsonWs c = false ∧ c ≠ ']' ∧ c ≠ '\x7d' := by
  cases v with
  | null => refine ⟨_, _, rfl, ?_, ?_, ?_⟩ <;> decide
  | bool b => cases b <;> refine ⟨_, _, rfl, ?_, ?_, ?_⟩ <;> decide
  | num m e =>
    rw [show stringifyV (.num m e) = numReprC m e from rfl, numReprC_decomp]
    by_cases hm : m < 0
    · exact ⟨'-', _, by rw [if_pos hm]; rfl, by decide, by decide, by decide⟩
    · obtain ⟨d, ds2, hds2, hd⟩ :
          ∃ d ds2, absNumRepr m.natAbs e = d :: ds2 ∧ isDigitC d = true := by
        obtain ⟨d, ds, hds, hd0, _⟩ := natRepr_head_digit m.natAbs
        unfold absNumRepr
        by_cases he : e = 0
        · exact ⟨d, ds, by rw [if_pos he, hds], hd0⟩
        · exact ⟨d, ds ++ 'e' :: intReprC e, by rw [if_neg he, hds]; simp, hd0⟩
      obtain ⟨hws, _, _, _, _, _, _, _, _, _, _, _, _, hbr, hbk⟩ := digit_not_special d hd
      exact ⟨d, ds2, by rw [if_neg hm]; simpa using hds2, hws, hbk, hbr⟩
  | str s => refine ⟨_, _, rfl, ?_, ?_, ?_⟩ <;> decide
  | arr xs => refine ⟨_, _, rfl, ?_, ?_, ?_⟩ <;> decide
  | obj ms => refine ⟨_, _, rfl, ?_, ?_, ?_⟩ <;> decide

theorem stringifyO_head (k : String) (v : JVal) (tl : JObj) :
    ∃ t2, stringifyO (.ocons k v tl) = '"' :: t2 := by
  cases tl <;> exact ⟨_, rfl⟩

theorem numReprC_head (m e : Int) :
    ∃ c t2, numReprC m e = c :: t2 ∧ isJsonWs c = false ∧ c ≠ '\x7b' ∧ c ≠ '[' ∧ c ≠ '"' ∧
      c ≠ 't' ∧ c ≠ 'f' ∧ c ≠ 'n' := by
  rw [numReprC_decomp]
  by_cases hm : m < 0
  · exact ⟨'-', _, by rw [if_pos hm]; rfl, by decide, by decide, by decide, by decide,
      by decide, by decide, by decide⟩
  · obtain ⟨d, ds2, hds2, hd⟩ :
        ∃ d ds2, absNumRepr m.natAbs e = d :: ds2 ∧ isDigitC d = true := by
      obtain ⟨d, ds, hds, hd0, _⟩ := natRepr_head_digit m.natAbs
      unfold absNumRepr
      by_cases he : e = 0
      · exact ⟨d, ds, by rw [if_pos he, hds], hd0⟩
      · exact ⟨d, ds ++ 'e' :: intReprC e, by rw [if_neg he, hds]; simp, hd0⟩
    obtain ⟨hws, hc1, hc2, hc3, hc4, hc5, hc6, _⟩ := digit_not_special d hd
    exact ⟨d, ds2, by rw [if_neg hm]; simpa using hds2, hws, hc1, hc2, hc3, hc4, hc5, hc6⟩


theorem jsonRoundtripAux :
    ∀ f : Nat,
      (∀ v rest, szV v ≤ f → wfV v = true → noNumCont rest →
        parseVal f (stringifyV v ++ rest) = some (v, rest)) ∧
      (∀ ms acc rest, ms ≠ JObj.onil → szO ms ≤ f → wfO ms = true →
        parseMembers f acc (stringifyO ms ++ '\x7d' :: rest)
          = some (.obj (setKeyAll acc ms), rest)) ∧
      (∀ xs acc rest, xs ≠ JArr.anil → szA xs ≤ f → wfA xs = true →
        parseElems f acc (stringifyA xs ++ ']' :: rest)
          = some (.arr (appendA acc xs), rest)) := by
  intro f
  induction f with
  | zero =>
    refine ⟨fun v rest hsz _ _ => ?_, fun ms acc rest hne hsz _ => ?_,
      fun xs acc rest hne hsz _ => ?_⟩
    · have := szV_pos v
      omega
    · have := szO_pos ms
      omega
    · have := szA_pos xs
      omega
  | succ f ih =>
    obtain ⟨ihV, ihM, ihE⟩ := ih
    refine ⟨?_, ?_, ?_⟩
    · intro v rest hsz hwf hnc
      cases v with
      | null =>
        show parseVal (f + 1) (['n', 'u', 'l', 'l'] ++ rest) = some (.null, rest)
        simp [parseVal, skipWs, isJsonWs]
      | bool b =>
        cases b with
        | true =>
          show parseVal (f + 1) (['t', 'r', 'u', 'e'] ++ rest) = some (.bool true, rest)
          simp [parseVal, skipWs, isJsonWs]
        | false =>
          show parseVal (f + 1) (['f', 'a', 'l', 's', 'e'] ++ rest) = some (.bool false, rest)
          simp [parseVal, skipWs, isJsonWs]
      | num m e =>
        obtain ⟨c, t2, hL, hws, h1, h2, h3, h4, h5, h6⟩ := numReprC_head m e
        show parseVal (f + 1) (numReprC m e ++ rest) = some (.num m e, rest)
        rw [hL]
        simp only [List.cons_append]
        have hskip := skipWs_cons_of_not c (t2 ++ rest) hws
        simp only [parseVal, hskip, List.head?_cons, List.tail_cons]
        rw [if_neg (by simp [h1]), if_neg (by simp [h2]), if_neg (by simp [h3]),
          if_neg (by simp [h4]), if_neg (by simp [h5]), if_neg (by simp [h6])]
        rw [show c :: (t2 ++ rest) = numReprC m e ++ rest from by rw [hL]; simp]
        rw [parseNum_repr m e rest hnc]
      | str s =>
        obtain ⟨sd⟩ := s
        show parseVal (f + 1) (quoteStr sd ++ rest) = some (.str (String.mk sd), rest)
        have hshape : quoteStr sd ++ rest = '"' :: (quoteBody sd ++ '"' :: rest) := by
          simp [quoteStr]
        rw [hshape]
        have hskip := skipWs_cons_of_not '"' (quoteBody sd ++ '"' :: rest) (by decide)
        simp only [parseVal, hskip, List.head?_cons, List.tail_cons]
        rw [if_neg (by decide), if_neg (by decide), if_pos trivial]
        rw [parseStrBody_quote sd rest _ (by simp; omega)]
      | arr xs =>
        cases xs with
        | anil =>
          show parseVal (f + 1) (('[' :: (stringifyA .anil ++ [']'])) ++ rest)
            = some (.arr .anil, rest)
          simp [stringifyA, parseVal, skipWs, isJsonWs]
        | acons v tl =>
          have hsza : szA (JArr.acons v tl) ≤ f := by
            simp [szV, szA] at hsz ⊢
            omega
          have hwfa : wfA (JArr.acons v tl) = true := hwf
          have hne2 : JArr.acons v tl ≠ JArr.anil := by intro hx; exact JArr.noConfusion hx
          obtain ⟨c2, t3, hA, hws2, hbr2, _⟩ :
              ∃ c2 t3, stringifyA (JArr.acons v tl) = c2 :: t3 ∧ isJsonWs c2 = false ∧
                c2 ≠ ']' ∧ c2 ≠ '\x7d' := by
            obtain ⟨c2, t0, hv0, hws0, hbr0, hbc0⟩ := stringifyV_head v
            cases tl with
            | anil => exact ⟨c2, t0, by simp [stringifyA, hv0], hws0, hbr0, hbc0⟩
            | acons v2 tl2 =>
              exact ⟨c2, t0 ++ ',' :: stringifyA (.acons v2 tl2),
                by simp [stringifyA, hv0], hws0, hbr0, hbc0⟩
          show parseVal (f + 1) (('[' :: (stringifyA (JArr.acons v tl) ++ [']'])) ++ rest)
            = some (.arr (JArr.acons v tl), rest)
          simp only [List.cons_append, List.append_assoc, List.singleton_append,
            List.nil_append]
          have hskip1 := skipWs_cons_of_not '['
            (stringifyA (JArr.acons v tl) ++ ']' :: rest) (by decide)
          simp only [parseVal, hskip1, List.head?_cons, List.tail_cons]
          rw [if_neg (by decide), if_pos trivial]
          rw [hA]
          simp only [List.cons_append]
          have hskip2 := skipWs_cons_of_not c2 (t3 ++ ']' :: rest) hws2
          simp only [hskip2, List.head?_cons, List.tail_cons]
          rw [if_neg (by simp [hbr2])]
          rw [show c2 :: (t3 ++ ']' :: rest) = stringifyA (JArr.acons v tl) ++ ']' :: rest
            from by rw [hA]; simp]
          rw [ihE (JArr.acons v tl) .anil rest hne2 hsza hwfa, appendA_anil]
      | obj ms =>
        cases ms with
        | onil =>
          show parseVal (f + 1) (('\x7b' :: (stringifyO .onil ++ ['\x7d'])) ++ rest)
            = some (.obj .onil, rest)
          simp [stringifyO, parseVal, skipWs, isJsonWs]
        | ocons k v tl =>
          have hszo : szO (JObj.ocons k v tl) ≤ f := by
            simp [szV, szO] at hsz ⊢
            omega
          have hwfo : wfO (JObj.ocons k v tl) = true := hwf
          have hne2 : JObj.ocons k v tl ≠ JObj.onil := by intro hx; exact JObj.noConfusion hx
          obtain ⟨t3, hO⟩ := stringifyO_head k v tl
          show parseVal (f + 1) (('\x7b' :: (stringifyO (JObj.ocons k v tl) ++ ['\x7d'])) ++ rest)
            = some (.obj (JObj.ocons k v tl), rest)
          simp only [List.cons_append, List.append_assoc, List.singleton_append,
            List.nil_append]
          have hskip1 := skipWs_cons_of_not '\x7b'
            (stringifyO (JObj.ocons k v tl) ++ '\x7d' :: rest) (by decide)
          simp only [parseVal, hskip1, List.head?_cons, List.tail_cons]
          rw [if_pos trivial]
          rw [hO]
          simp only [List.cons_append]
          have hskip2 := skipWs_cons_of_not '"' (t3 ++ '\x7d' :: rest) (by decide)
          simp only [hskip2, List.head?_cons, List.tail_cons]
          rw [if_neg (by decide)]
          rw [show '"' :: (t3 ++ '\x7d' :: rest)
              = stringifyO (JObj.ocons k v tl) ++ '\x7d' :: rest from by rw [hO]; simp]
          rw [ihM (JObj.ocons k v tl) .onil rest hne2 hszo hwfo, setKeyAll_onil _ hwfo]
    · intro ms acc rest hne hsz hwf
      cases ms with
      | onil => exact absurd rfl hne
      | ocons k v tl =>
        obtain ⟨hkey, hwv, hwtl⟩ := wfO_cons_parts k v tl hwf
        have hszv : szV v ≤ f := by
          simp [szO] at hsz
          omega
        have hsztl : szO tl ≤ f := by
          simp [szO] at hsz
          have := szO_pos tl
          omega
        obtain ⟨kd⟩ := k
        cases tl with
        | onil =>
          have hshape : stringifyO (JObj.ocons (String.mk kd) v .onil) ++ '\x7d' :: rest
              = '"' :: (quoteBody kd ++ '"' :: (':' :: (stringifyV v ++ '\x7d' :: rest))) := by
            simp [stringifyO, quoteStr]
          rw [hshape]
          have hkeq : parseStrBody ((quoteBody kd ++ '"'
                :: (':' :: (stringifyV v ++ '\x7d' :: rest))).length + 1)
              (quoteBody kd ++ '"' :: (':' :: (stringifyV v ++ '\x7d' :: rest)))
              = some (kd, ':' :: (stringifyV v ++ '\x7d' :: rest)) :=
            parseStrBody_quote kd _ _ (by simp; omega)
          have hscolon := skipWs_cons_of_not ':' (stringifyV v ++ '\x7d' :: rest) (by decide)
          have hveq := ihV v ('\x7d' :: rest) hszv hwv (noNumCont_cons _ _ (by decide))
          have hsbrace := skipWs_cons_of_not '\x7d' rest (by decide)
          simp only [parseMembers, List.head?_cons, List.tail_cons, hkeq, hscolon, hveq,
            hsbrace, if_pos rfl]
          simp
          rfl
        | ocons k2 v2 tl2 =>
          have hne3 : JObj.ocons k2 v2 tl2 ≠ JObj.onil := by
            intro hx; exact JObj.noConfusion hx
          obtain ⟨t4, hO2⟩ := stringifyO_head k2 v2 tl2
          have hshape : stringifyO (JObj.ocons (String.mk kd) v (JObj.ocons k2 v2 tl2))
                ++ '\x7d' :: rest
              = '"' :: (quoteBody kd ++ '"' :: (':' :: (stringifyV v
                  ++ ',' :: (stringifyO (JObj.ocons k2 v2 tl2) ++ '\x7d' :: rest)))) := by
            simp [stringifyO, quoteStr]
          rw [hshape]
          have hkeq : parseStrBody ((quoteBody kd ++ '"' :: (':' :: (stringifyV v
                  ++ ',' :: (stringifyO (JObj.ocons k2 v2 tl2) ++ '\x7d' :: rest)))).length + 1)
              (quoteBody kd ++ '"' :: (':' :: (stringifyV v
                  ++ ',' :: (stringifyO (JObj.ocons k2 v2 tl2) ++ '\x7d' :: rest))))
              = some (kd, ':' :: (stringifyV v
                  ++ ',' :: (stringifyO (JObj.ocons k2 v2 tl2) ++ '\x7d' :: rest))) :=
            parseStrBody_quote kd _ _ (by simp; omega)
          have hscolon := skipWs_cons_of_not ':' (stringifyV v
              ++ ',' :: (stringifyO (JObj.ocons k2 v2 tl2) ++ '\x7d' :: rest)) (by decide)
          have hveq := ihV v (',' :: (stringifyO (JObj.ocons k2 v2 tl2) ++ '\x7d' :: rest))
            hszv hwv (noNumCont_cons _ _ (by decide))
          have hscomma := skipWs_cons_of_not ','
            (stringifyO (JObj.ocons k2 v2 tl2) ++ '\x7d' :: rest) (by decide)
          simp only [parseMembers, List.head?_cons, List.tail_cons, hkeq, hscolon, hveq,
            hscomma, if_pos rfl]
          rw [hO2]
          simp only [List.cons_append]
          have hskip3 := skipWs_cons_of_not '"' (t4 ++ '\x7d' :: rest) (by decide)
          simp only [hskip3, List.head?_cons, List.tail_cons]
          rw [show ('"' :: (t4 ++ '\x7d' :: rest))
              = stringifyO (JObj.ocons k2 v2 tl2) ++ '\x7d' :: rest from by rw [hO2]; simp]
          rw [ihM (JObj.ocons k2 v2 tl2) _ rest hne3 hsztl hwtl]
          rfl
    · intro xs acc rest hne hsz hwf
      cases xs with
      | anil => exact absurd rfl hne
      | acons v tl =>
        have hwv : wfV v = true := by
          rw [show wfA (.acons v tl) = (wfV v && wfA tl) from rfl, Bool.and_eq_true] at hwf
          exact hwf.1
        have hwtl : wfA tl = true := by
          rw [show wfA (.acons v tl) = (wfV v && wfA tl) from rfl, Bool.and_eq_true] at hwf
          exact hwf.2
        have hszv : szV v ≤ f := by
          simp [szA] at hsz
          omega
        have hsztl : szA tl ≤ f := by
          simp [szA] at hsz
          have := szA_pos tl
          omega
        cases tl with
        | anil =>
          have hshape : stringifyA (JArr.acons v .anil) ++ ']' :: rest
              = stringifyV v ++ ']' :: rest := by
            simp [stringifyA]
          rw [hshape]
          have hveq := ihV v (']' :: rest) hszv hwv (noNumCont_cons _ _ (by decide))
          have hsb := skipWs_cons_of_not ']' rest (by decide)
          simp only [parseElems, hveq, hsb, List.head?_cons, List.tail_cons]
          simp
          rfl
        | acons v2 tl2 =>
          have hne3 : JArr.acons v2 tl2 ≠ JArr.anil := by
            intro hx; exact JArr.noConfusion hx
          have hshape : stringifyA (JArr.acons v (JArr.acons v2 tl2)) ++ ']' :: rest
              = stringifyV v ++ ',' :: (stringifyA (JArr.acons v2 tl2) ++ ']' :: rest) := by
            simp [stringifyA]
          rw [hshape]
          have hveq := ihV v (',' :: (stringifyA (JArr.acons v2 tl2) ++ ']' :: rest))
            hszv hwv (noNumCont_cons _ _ (by decide))
          have hscomma := skipWs_cons_of_not ','
            (stringifyA (JArr.acons v2 tl2) ++ ']' :: rest) (by decide)
          simp only [parseElems, hveq, hscomma, List.head?_cons, List.tail_cons, if_pos rfl]
          rw [ihE (JArr.acons v2 tl2) _ rest hne3 hsztl hwtl]
          rfl

theorem szBoundAux :
    ∀ n : Nat,
      (∀ v, szV v ≤ n → szV v ≤ 2 * (stringifyV v).length) ∧
      (∀ xs, szA xs ≤ n → szA xs ≤ 2 * (stringifyA xs).length + 2) ∧
      (∀ ms, szO ms ≤ n → szO ms ≤ 2 * (stringifyO ms).length + 2) := by
  intro n
  induction n with
  | zero =>
    refine ⟨fun v hsz => ?_, fun xs hsz => ?_, fun ms hsz => ?_⟩
    · have := szV_pos v
      omega
    · have := szA_pos xs
      omega
    · have := szO_pos ms
      omega
  | succ n ih =>
    obtain ⟨ihV, ihA, ihO⟩ := ih
    refine ⟨fun v hsz => ?_, fun xs hsz => ?_, fun ms hsz => ?_⟩
    · cases v with
      | null => simp [szV, stringifyV]
      | bool b => cases b <;> simp [szV, stringifyV]
      | num m e =>
        obtain ⟨c, t2, hL, _⟩ := numReprC_head m e
        show szV (.num m e) ≤ 2 * (numReprC m e).length
        rw [hL]
        simp [szV]
        omega
      | str s =>
        obtain ⟨sd⟩ := s
        show szV (.str (String.mk sd)) ≤ 2 * (quoteStr sd).length
        simp [szV, quoteStr]
        omega
      | arr xs =>
        have hx : szA xs ≤ n := by
          simp [szV] at hsz
          omega
        have := ihA xs hx
        show szV (.arr xs) ≤ 2 * ('[' :: (stringifyA xs ++ [']'])).length
        simp [szV] at this ⊢
        omega
      | obj ms =>
        have hx : szO ms ≤ n := by
          simp [szV] at hsz
          omega
        have := ihO ms hx
        show szV (.obj ms) ≤ 2 * ('\x7b' :: (stringifyO ms ++ ['\x7d'])).length
        simp [szV] at this ⊢
        omega
    · cases xs with
      | anil => simp [szA, stringifyA]
      | acons v tl =>
        have hv : szV v ≤ n := by
          simp [szA] at hsz
          have := szV_pos v
          omega
        have htl : szA tl ≤ n := by
          simp [szA] at hsz
          have := szA_pos tl
          omega
        have h1 := ihV v hv
        have h2 := ihA tl htl
        cases tl with
        | anil =>
          show szA (.acons v .anil) ≤ 2 * (stringifyV v).length + 2
          simp [szA]
          omega
        | acons v2 tl2 =>
          show szA (.acons v (.acons v2 tl2))
            ≤ 2 * (stringifyV v ++ ',' :: stringifyA (.acons v2 tl2)).length + 2
          simp [szA] at h2 ⊢
          omega
    · cases ms with
      | onil => simp [szO, stringifyO]
      | ocons k v tl =>
        have hv : szV v ≤ n := by
          simp [szO] at hsz
          have := szV_pos v
          omega
        have htl : szO tl ≤ n := by
          simp [szO] at hsz
          have := szO_pos tl
          omega
        have h1 := ihV v hv
        have h2 := ihO tl htl
        cases tl with
        | onil =>
          show szO (.ocons k v .onil)
            ≤ 2 * (quoteStr k.data ++ (':' :: stringifyV v)).length + 2
          simp [szO, quoteStr]
          omega
        | ocons k2 v2 tl2 =>
          show szO (.ocons k v (.ocons k2 v2 tl2))
            ≤ 2 * (quoteStr k.data ++ (':' :: stringifyV v)
                ++ (',' :: stringifyO (.ocons k2 v2 tl2))).length + 2
          simp [szO, quoteStr] at h2 ⊢
          omega

theorem noNumCont_nil : noNumCont [] := by
  intro c hc
  simp at hc

theorem jsonParse_stringify (v : JVal) (h : wfV v = true) :
    jsonParse (stringify v) = some v := by
  have hb := (szBoundAux (szV v)).1 v le_rfl
  have hr := (jsonRoundtripAux (2 * (stringifyV v).length + 2)).1 v []
    (by omega) h noNumCont_nil
  rw [List.append_nil] at hr
  show (match parseVal (2 * (stringifyV v).length + 2) (stringifyV v) with
    | some (v0, rest) =>
      match skipWs rest with
      | [] => some v0
      | _ => none
    | none => none) = some v
  rw [hr]
  rfl

theorem b64Char_ne_dot_all (n : Nat) : b64Char n ≠ '.' := by
  unfold b64Char
  cases hn : b64Alphabet.get? n with
  | none => decide
  | some c =>
    have hm : c ∈ b64Alphabet := List.get?_mem hn
    have hall : ∀ x ∈ b64Alphabet, x ≠ '.' := by decide
    simpa using hall c hm

theorem btoaTriples_ne_dot (bs : List Nat) : ∀ c ∈ btoaTriples bs, c ≠ '.' := by
  induction bs using btoaTriples.induct with
  | case1 => intro c hc; simp [btoaTriples] at hc
  | case2 a =>
    intro c hc
    simp [btoaTriples] at hc
    rcases hc with rfl | rfl | rfl
    · exact b64Char_ne_dot_all _
    · exact b64Char_ne_dot_all _
    · decide
  | case3 a b =>
    intro c hc
    simp [btoaTriples] at hc
    rcases hc with rfl | rfl | rfl | rfl
    · exact b64Char_ne_dot_all _
    · exact b64Char_ne_dot_all _
    · exact b64Char_ne_dot_all _
    · decide
  | case4 a b c3 rest ih =>
    intro c hc
    simp [btoaTriples] at hc
    rcases hc with rfl | rfl | rfl | rfl | hmem
    · exact b64Char_ne_dot_all _
    · exact b64Char_ne_dot_all _
    · exact b64Char_ne_dot_all _
    · exact b64Char_ne_dot_all _
    · exact ih c hmem

theorem btoaC_ne_dot (cs bts : List Char) (h : btoaC cs = some bts) :
    ∀ c ∈ bts, c ≠ '.' := by
  unfold btoaC at h
  split at h
  · injection h with h2
    subst h2
    exact btoaTriples_ne_dot _
  · exact absurd h (by simp)

theorem splitDotsAux_nodot :
    ∀ (h : List Char), (∀ c ∈ h, c ≠ '.') →
      ∀ acc rest, splitDotsAux acc (h ++ '.' :: rest)
        = (acc.reverse ++ h) :: splitDotsAux [] rest := by
  intro h
  induction h with
  | nil =>
    intro _ acc rest
    simp [splitDotsAux]
  | cons c h2 ih =>
    intro hnd acc rest
    have hc : c ≠ '.' := hnd c (by simp)
    rw [List.cons_append]
    rw [show splitDotsAux acc (c :: (h2 ++ '.' :: rest))
        = if c = '.' then acc.reverse :: splitDotsAux [] (h2 ++ '.' :: rest)
          else splitDotsAux (c :: acc) (h2 ++ '.' :: rest) from rfl]
    rw [if_neg hc]
    rw [ih (fun x hx => hnd x (by simp [hx])) (c :: acc) rest]
    simp

theorem decodeToken_rebuilt (hd pl h64 p64 sig : List Char)
    (hh : btoaC hd = some h64) (hp : btoaC pl = some p64) :
    decodeToken (String.mk (h64 ++ '.' :: (p64 ++ '.' :: sig)))
      = jsonParse (String.mk pl) := by
  unfold decodeToken splitDots
  have hsp : splitDotsAux [] (h64 ++ '.' :: (p64 ++ '.' :: sig))
      = h64 :: (p64 :: splitDotsAux [] sig) := by
    rw [splitDotsAux_nodot h64 (btoaC_ne_dot hd h64 hh) [] (p64 ++ '.' :: sig)]
    rw [splitDotsAux_nodot p64 (btoaC_ne_dot pl p64 hp) [] sig]
    simp
  show (match atobC ((((splitDotsAux [] (String.mk (h64 ++ '.' :: (p64 ++ '.' :: sig))).data).get? 1).getD "undefined".data) : List Char) with
    | none => none
    | some payloadText => jsonParse (String.mk payloadText)) = jsonParse (String.mk pl)
  rw [show (String.mk (h64 ++ '.' :: (p64 ++ '.' :: sig))).data
      = h64 ++ '.' :: (p64 ++ '.' :: sig) from rfl]
  rw [hsp]
  simp only [List.get?_cons_succ, List.get?_cons_zero, Option.getD_some]
  rw [atobC_btoaC pl p64 hp]

theorem hasKeyO_setKeyO (ms : JObj) (k k2 : String) (v : JVal) :
    hasKeyO (setKeyO ms k v) k2 = (hasKeyO ms k2 || decide (k = k2)) := by
  induction ms using objSpine.induct with
  | case1 =>
    show (decide (k = k2) || hasKeyO .onil k2) = (hasKeyO .onil k2 || decide (k = k2))
    simp [hasKeyO]
  | case2 k0 v0 tl ih =>
    by_cases hk : k0 = k
    · subst hk
      simp only [setKeyO, if_pos rfl]
      show (decide (k0 = k2) || hasKeyO tl k2)
        = ((decide (k0 = k2) || hasKeyO tl k2) || decide (k0 = k2))
      by_cases h2 : k0 = k2 <;> simp [h2]
    · simp only [setKeyO, if_neg hk]
      show (decide (k0 = k2) || hasKeyO (setKeyO tl k v) k2)
        = ((decide (k0 = k2) || hasKeyO tl k2) || decide (k = k2))
      rw [ih, Bool.or_assoc]

theorem setKeyO_wf (ms : JObj) (k : String) (v : JVal)
    (hw : wfO ms = true) (hv : wfV v = true) : wfO (setKeyO ms k v) = true := by
  induction ms using objSpine.induct with
  | case1 =>
    show (!hasKeyO .onil k && wfV v && wfO .onil) = true
    simp [hasKeyO, wfO, hv]
  | case2 k0 v0 tl ih =>
    rw [show wfO (.ocons k0 v0 tl) = (!hasKeyO tl k0 && wfV v0 && wfO tl) from rfl,
      Bool.and_eq_true, Bool.and_eq_true] at hw
    obtain ⟨⟨hnk, hv0⟩, htl⟩ := hw
    have hnk2 : hasKeyO tl k0 = false := by
      cases hx : hasKeyO tl k0
      · rfl
      · rw [hx] at hnk
        exact absurd hnk (by decide)
    by_cases hk : k0 = k
    · subst hk
      simp only [setKeyO, if_pos rfl]
      show (!hasKeyO tl k0 && wfV v && wfO tl) = true
      simp [hnk2, hv, htl]
    · simp only [setKeyO, if_neg hk]
      show (!hasKeyO (setKeyO tl k v) k0 && wfV v0 && wfO (setKeyO tl k v)) = true
      rw [hasKeyO_setKeyO]
      have h1 : decide (k = k0) = false := decide_eq_false (fun hx => hk hx.symm)
      rw [h1, hnk2]
      simp [hv0, ih htl]

theorem lookupO_setKeyO (ms : JObj) (k : String) (v : JVal) :
    lookupO (setKeyO ms k v) k = some v := by
  induction ms using objSpine.induct with
  | case1 => simp [setKeyO, lookupO]
  | case2 k0 v0 tl ih =>
    by_cases hk : k0 = k
    · subst hk
      simp [setKeyO, lookupO]
    · simp [setKeyO, hk, lookupO, ih]

/-- C1 (amended): willExpireSoon(token, 5) implies getTimeUntilExpiration(token)
is at most 5 minutes; the converse direction of the claimed equivalence fails
because whole-minute truncation maps every expiration within 6 minutes to a
value of at most 5. -/
theorem claim_c1 (token : String) (nowMs : Int)
    (h : willExpireSoon token nowMs 5 = true) :
    getTimeUntilExpiration token nowMs ≤ 5 := by
  unfold willExpireSoon at h
  unfold getTimeUntilExpiration
  cases hx : getTokenExpirationTime token with
  | none =>
    rw [hx] at h
    exact absurd h (by simp)
  | some mn =>
    rw [hx] at h
    replace h : dnLeInt mn.1 mn.2 (nowMs + 5 * 60 * 1000) = true := h
    rw [dnLeInt_iff] at h
    show max 0 (timeLeftMinutes mn.1 mn.2 nowMs) ≤ 5
    rw [timeLeftMinutes_eq]
    have h2 : (dnVal mn.1 mn.2 - (nowMs : ℚ)) / 60000 ≤ 5 := by
      rw [div_le_iff (by norm_num : (0 : ℚ) < 60000)]
      push_cast at h ⊢
      linarith
    have h3 : ⌊(dnVal mn.1 mn.2 - (nowMs : ℚ)) / 60000⌋ ≤ 5 := by
      calc ⌊(dnVal mn.1 mn.2 - (nowMs : ℚ)) / 60000⌋ ≤ ⌊(5 : ℚ)⌋ := Int.floor_mono h2
        _ = 5 := by norm_num
    exact max_le (by norm_num) h3

/-- Witness for C1 at a concrete soon-expiring token. -/
theorem claim_c1_witness :
    willExpireSoon "a.eyJleHAiOjV9.b" 0 5 = true ∧
      getTimeUntilExpiration "a.eyJleHAiOjV9.b" 0 ≤ 5 :=
  ⟨rfl, claim_c1 "a.eyJleHAiOjV9.b" 0 rfl⟩

/-- Counterexample to the original C1 equivalence: a token expiring in 5.5
minutes has getTimeUntilExpiration = 5 yet willExpireSoon is false. -/
theorem claim_c1_counterexample :
    willExpireSoon "a.eyJleHAiOjEwMDAwMDAzMzB9.b" 1000000000000 5 = false ∧
      getTimeUntilExpiration "a.eyJleHAiOjEwMDAwMDAzMzB9.b" 1000000000000 = 5 :=
  ⟨rfl, rfl⟩

/-- C3 (amended): whenever decodeToken returns null, isTokenExpired is true,
and a token with no dot (fewer than two segments) always decodes to null; but
a wrong segment count above two, or a payload that is valid JSON without
being an object, can still decode to a non-null value. -/
theorem claim_c3 (token : String) (nowMs : Int) :
    (decodeToken token = none → isTokenExpired token nowMs = true)
    ∧ ((splitDots token).length = 1 → decodeToken token = none) := by
  constructor
  · intro h
    unfold isTokenExpired
    rw [h]
  · intro h
    unfold decodeToken
    have hget : (splitDots token).get? 1 = none := by
      rw [List.get?_eq_none]
      omega
    rw [hget]
    rfl

/-- Witness for C3 on concrete malformed tokens. -/
theorem claim_c3_witness :
    isTokenExpired "garbage" 0 = true ∧ decodeToken "nodots" = none :=
  ⟨(claim_c3 "garbage" 0).1 rfl, (claim_c3 "nodots" 0).2 rfl⟩

/-- Counterexample to the original C3: a token with four dot-separated
segments (wrong segment count) still decodes to a non-null payload. -/
theorem claim_c3_counterexample :
    decodeToken "a.eyJleHAiOjV9.b.c" = some (.obj (.ocons "exp" (.num 5 0) .onil)) := rfl

/-- C4: for a token whose payload decodes, is truthy and carries a truthy
numeric exp, isTokenExpired is true exactly when exp is strictly below the
current epoch seconds (so the boundary second is not expired); and a decoded
payload without an exp member is reported expired. -/
theorem claim_c4 (token : String) (nowMs : Int) (payload : JVal)
    (hdec : decodeToken token = some payload) (htr : jsTruthy payload = true) :
    (∀ m e : Int, jsGet payload "exp" = some (.num m e) → m ≠ 0 →
      (isTokenExpired token nowMs = true ↔ dnVal m e < ((Int.fdiv nowMs 1000 : Int) : ℚ)))
    ∧ (jsGet payload "exp" = none → isTokenExpired token nowMs = true) := by
  constructor
  · intro m e hexp hm
    unfold isTokenExpired
    rw [hdec]
    show (if !jsTruthy payload then true
      else match jsGet payload "exp" with
        | none => true
        | some ex =>
          if !jsTruthy ex then true
          else match toNum ex with
            | some mn => dnLtInt mn.1 mn.2 (Int.fdiv nowMs 1000)
            | none => false) = true ↔ _
    rw [htr, hexp]
    show (if !jsTruthy (JVal.num m e) then true
      else match toNum (JVal.num m e) with
        | some mn => dnLtInt mn.1 mn.2 (Int.fdiv nowMs 1000)
        | none => false) = true ↔ _
    have htm : jsTruthy (JVal.num m e) = true := by
      simp [jsTruthy, hm]
    rw [htm]
    show dnLtInt m e (Int.fdiv nowMs 1000) = true ↔ _
    exact dnLtInt_iff m e (Int.fdiv nowMs 1000)
  · intro hexp
    unfold isTokenExpired
    rw [hdec]
    show (if !jsTruthy payload then true
      else match jsGet payload "exp" with
        | none => true
        | some ex =>
          if !jsTruthy ex then true
          else match toNum ex with
            | some mn => dnLtInt mn.1 mn.2 (Int.fdiv nowMs 1000)
            | none => false) = true
    rw [htr, hexp]
    rfl

/-- Witness for C4 on a concrete expired token. -/
theorem claim_c4_witness :
    decodeToken "a.eyJleHAiOjV9.b" = some (.obj (.ocons "exp" (.num 5 0) .onil)) ∧
      (isTokenExpired "a.eyJleHAiOjV9.b" 10000 = true ↔
        dnVal 5 0 < ((Int.fdiv 10000 1000 : Int) : ℚ)) :=
  ⟨rfl,
    (claim_c4 "a.eyJleHAiOjV9.b" 10000 (.obj (.ocons "exp" (.num 5 0) .onil)) rfl rfl).1
      5 0 rfl (by decide)⟩

/-- C5: the capability predicates realize the static role table: Admin has
all five capabilities, DataEntryUser all but user management, Observer only
read, and any other or absent role has none. -/
theorem claim_c5 (role : Option String) :
    (canRead role = true ↔
      role = some "Admin" ∨ role = some "DataEntryUser" ∨ role = some "Observer")
    ∧ (canWrite role = true ↔ role = some "Admin" ∨ role = some "DataEntryUser")
    ∧ (canUpdate role = true ↔ role = some "Admin" ∨ role = some "DataEntryUser")
    ∧ (canDelete role = true ↔ role = some "Admin" ∨ role = some "DataEntryUser")
    ∧ (canManageUsers role = true ↔ role = some "Admin") := by
  cases role with
  | none => simp [canRead, canWrite, canUpdate, canDelete, canManageUsers]
  | some r =>
    simp [canRead, canWrite, canUpdate, canDelete, canManageUsers, List.contains,
      List.elem_iff]

/-- C6 (amended): every failed login leaves the state and storage unchanged,
reports success = false, uses the server body's truthy message when present,
and otherwise falls back to the single generic message "Login failed" for
both a non-2xx response and a network error — the generic message does not
distinguish the two. -/
theorem claim_c6 (s : AuthState) (data : Option ErrorData) (nowMs : Int) :
    (login s (.errorResponse data) nowMs).1 = s
    ∧ (login s .networkError nowMs).1 = s
    ∧ (login s (.errorResponse data) nowMs).2.success = false
    ∧ (login s .networkError nowMs).2.success = false
    ∧ (∀ d m, data = some d → d.message = some m → m ≠ "" →
        (login s (.errorResponse data) nowMs).2.error = some m)
    ∧ (login s .networkError nowMs).2.error = some "Login failed"
    ∧ (data = none → (login s (.errorResponse data) nowMs).2.error = some "Login failed") := by
  refine ⟨rfl, rfl, rfl, rfl, ?_, rfl, ?_⟩
  · intro d m hd hm hne
    subst hd
    obtain ⟨msg⟩ := d
    have hm2 : msg = some m := hm
    subst hm2
    show some (if m ≠ "" then m else "Login failed") = some m
    rw [if_pos hne]
  · intro hd
    subst hd
    rfl

/-- Witness for C6 on the invalid-credentials scenario. -/
theorem claim_c6_witness :
    (login (initialAuthState none)
        (.errorResponse (some { message := some "Invalid credentials" })) 0).2.error
      = some "Invalid credentials" :=
  (claim_c6 (initialAuthState none) (some { message := some "Invalid credentials" }) 0).2.2.2.2.1
    { message := some "Invalid credentials" } "Invalid credentials" rfl rfl (by decide)

/-- Counterexample to the original C6: a server rejection carrying no message
and a network error produce the identical result, so the generic message does
not distinguish server rejection from no connection. -/
theorem claim_c6_counterexample :
    (login (initialAuthState none) (.errorResponse (some { message := none })) 0).2
      = (login (initialAuthState none) .networkError 0).2 := rfl

/-- C10: a 2xx login response with no body or no token field reports the
fixed invalid-response message and leaves the state and storage unchanged. -/
theorem claim_c10 (s : AuthState) (nowMs : Int) :
    login s (.ok none) nowMs
        = (s, { success := false, error := some "Invalid response from server" })
    ∧ ∀ d : LoginData, d.token = none →
        login s (.ok (some d)) nowMs
          = (s, { success := false, error := some "Invalid response from server" }) := by
  constructor
  · rfl
  · intro d hd
    obtain ⟨tok⟩ := d
    have hd2 : tok = none := hd
    subst hd2
    rfl

/-- Witness for C10 at a concrete token-less 2xx response. -/
theorem claim_c10_witness :
    login (initialAuthState none) (.ok (some { token := none })) 0
      = (initialAuthState none,
          { success := false, error := some "Invalid response from server" }) :=
  (claim_c10 (initialAuthState none) 0).2 { token := none } rfl

/-- C2 (amended): isAuthenticated tracks only the truthiness of the token
handed to the last updateAuthState call, not its validity: logout always
clears it, the watchdog clears it for an expired stored token, but
updateAuthState sets it to true for every non-empty token string, expired or
even undecodable — so the claimed equivalence with non-expiry fails. -/
theorem claim_c2 (s : AuthState) (newToken : Option String) (t : String) (nowMs : Int) :
    (logout s nowMs).isAuthenticated = false
    ∧ (updateAuthState s newToken nowMs).isAuthenticated = truthyStr newToken
    ∧ (s.token = some t → t ≠ "" → isTokenExpired t nowMs = true →
        (watchdogEffect s nowMs).isAuthenticated = false) := by
  refine ⟨rfl, ?_, ?_⟩
  · cases newToken with
    | none => rfl
    | some t2 =>
      by_cases h : t2 = "" <;> simp [updateAuthState, truthyStr, h]
  · intro hst hne hex
    unfold watchdogEffect
    simp only [hst]
    rw [if_neg hne]
    unfold checkTokenExpiration
    simp only [hst, hex]
    simp [updateAuthState]

/-- Witness for C2: the watchdog clears isAuthenticated on an expired stored
token. -/
theorem claim_c2_witness :
    (watchdogEffect
        { token := some "a.eyJleHAiOjV9.b", user := none, isAuthenticated := true,
          isTokenExpiring := false, timeUntilExpiration := 0,
          storage := some "a.eyJleHAiOjV9.b" } 10000).isAuthenticated = false :=
  (claim_c2
      { token := some "a.eyJleHAiOjV9.b", user := none, isAuthenticated := true,
        isTokenExpiring := false, timeUntilExpiration := 0,
        storage := some "a.eyJleHAiOjV9.b" }
      none "a.eyJleHAiOjV9.b" 10000).2.2 rfl (by decide) rfl

/-- Counterexample to the original C2 invariant: updateAuthState on an
undecodable (hence expired per the token codec) token still reports
isAuthenticated = true. -/
theorem claim_c2_counterexample :
    (updateAuthState (initialAuthState none) (some "garbage") 1000).isAuthenticated = true
    ∧ isTokenExpired "garbage" 1000 = true := ⟨rfl, rfl⟩

/-- C7: on process start, an absent stored token leaves the cleared initial
state, a non-empty unexpired stored token produces the logged-in state
derived from it (expiring flag at the 5-minute threshold), and a non-empty
expired stored token is purged from storage leaving the logged-out state. -/
theorem claim_c7 (t : String) (nowMs : Int) :
    processStart none nowMs = initialAuthState none
    ∧ (t ≠ "" → isTokenExpired t nowMs = false →
        processStart (some t) nowMs
          = { token := some t, user := decodeUserFromToken t, isAuthenticated := true,
              isTokenExpiring := willExpireSoon t nowMs 5,
              timeUntilExpiration := getTimeUntilExpiration t nowMs, storage := some t })
    ∧ (t ≠ "" → isTokenExpired t nowMs = true →
        processStart (some t) nowMs
          = { token := none, user := none, isAuthenticated := false,
              isTokenExpiring := false, timeUntilExpiration := 0, storage := none }) := by
  refine ⟨rfl, ?_, ?_⟩
  · intro hne hex
    simp [processStart, watchdogEffect, initialAuthState, checkTokenExpiration, initEffect,
      updateAuthState, hne, hex]
  · intro hne hex
    simp [processStart, watchdogEffect, initialAuthState, checkTokenExpiration, initEffect,
      updateAuthState, hne, hex]

/-- Witness for C7 at a concrete unexpired and a concrete expired stored
token. -/
theorem claim_c7_witness :
    processStart (some "a.eyJleHAiOjIwMDAwMDAwMDB9.b") 1000000000000
        = { token := some "a.eyJleHAiOjIwMDAwMDAwMDB9.b",
            user := decodeUserFromToken "a.eyJleHAiOjIwMDAwMDAwMDB9.b",
            isAuthenticated := true,
            isTokenExpiring := willExpireSoon "a.eyJleHAiOjIwMDAwMDAwMDB9.b" 1000000000000 5,
            timeUntilExpiration :=
              getTimeUntilExpiration "a.eyJleHAiOjIwMDAwMDAwMDB9.b" 1000000000000,
            storage := some "a.eyJleHAiOjIwMDAwMDAwMDB9.b" }
    ∧ processStart (some "a.eyJleHAiOjV9.b") 1000000000000
        = { token := none, user := none, isAuthenticated := false, isTokenExpiring := false,
            timeUntilExpiration := 0, storage := none } :=
  ⟨(claim_c7 "a.eyJleHAiOjIwMDAwMDAwMDB9.b" 1000000000000).2.1 (by decide) rfl,
    (claim_c7 "a.eyJleHAiOjV9.b" 1000000000000).2.2 (by decide) rfl⟩

/-- Unfolding of the route guard on a non-empty stored token: it follows the
payload pipeline shared with decodeToken. -/
theorem requireAuth_decode (t : String) (nowMs : Int) (ht : ¬ t = "") :
    requireAuth (some t) nowMs
      = match decodeToken t with
        | none => (.redirect true, none)
        | some payload => guardStage2 t nowMs payload := by
  show (if t = "" then ((GuardResult.redirect true, some t) : GuardResult × Option String)
    else _) = _
  rw [if_neg ht]
  unfold decodeToken
  cases ha : atobC (((splitDots t).get? 1).getD "undefined".data) with
  | none => rfl
  | some txt => rfl

/-- C8 (amended): the guard always either renders or redirects with history
replacement, and for a non-empty stored token it renders exactly when the
payload segment decodes to a non-null JSON value whose exp member, when
present, truthy and numeric, is not strictly below the current epoch
seconds — in particular a decoded payload with no exp member renders, it is
not treated as expired. -/
theorem claim_c8 (nowMs : Int) :
    (∀ st, (requireAuth st nowMs).1 = .render ∨ (requireAuth st nowMs).1 = .redirect true)
    ∧ (∀ t, t ≠ "" →
        ((requireAuth (some t) nowMs).1 = .render ↔
          ∃ payload, decodeToken t = some payload ∧ payload ≠ .null ∧
            ∀ ex, jsGet payload "exp" = some ex → jsTruthy ex = true →
              ∀ mn : Int × Int, toNum ex = some mn →
                dnLtInt mn.1 mn.2 (Int.fdiv nowMs 1000) = false)) := by
  constructor
  · intro st
    rcases st with _ | t
    · right
      rfl
    · by_cases ht : t = ""
      · subst ht
        right
        rfl
      · rw [requireAuth_decode t nowMs ht]
        cases hd : decodeToken t with
        | none => right; rfl
        | some payload =>
          show (guardStage2 t nowMs payload).1 = .render ∨
            (guardStage2 t nowMs payload).1 = .redirect true
          cases payload with
          | null => right; rfl
          | bool b =>
            cases hx : jsGet (JVal.bool b) "exp" with
            | none => left; rfl
            | some ex => simp [jsGet] at hx
          | num m0 e0 => left; rfl
          | str s2 => left; rfl
          | arr xs => left; rfl
          | obj ms =>
            rw [show guardStage2 t nowMs (JVal.obj ms)
              = match jsGet (JVal.obj ms) "exp" with
                | some e =>
                  if jsTruthy e then
                    match toNum e with
                    | some mn =>
                      if dnLtInt mn.1 mn.2 (Int.fdiv nowMs 1000) then
                        ((GuardResult.redirect true, none) : GuardResult × Option String)
                      else (.render, some t)
                    | none => (.render, some t)
                  else (.render, some t)
                | none => (.render, some t) from rfl]
            cases hx : jsGet (JVal.obj ms) "exp" with
            | none => left; rfl
            | some ex =>
              dsimp only
              by_cases htr : jsTruthy ex = true
              · rw [if_pos htr]
                cases hn : toNum ex with
                | none => left; rfl
                | some mn =>
                  dsimp only
                  by_cases hlt : dnLtInt mn.1 mn.2 (Int.fdiv nowMs 1000) = true
                  · rw [if_pos hlt]
                    right
                    rfl
                  · rw [if_neg hlt]
                    left
                    rfl
              · rw [if_neg htr]
                left
                rfl
  · intro t ht
    rw [requireAuth_decode t nowMs ht]
    constructor
    · intro hr
      revert hr
      cases hd : decodeToken t with
      | none => intro hr; exact absurd hr (by simp)
      | some payload =>
        show (guardStage2 t nowMs payload).1 = GuardResult.render → _
        intro hr
        refine ⟨payload, rfl, ?_, ?_⟩
        · intro hnull
          subst hnull
          exact absurd hr (by simp [guardStage2])
        · intro ex hex htr mn hmn
          revert hr
          cases payload with
          | null => intro hr; exact absurd hr (by simp [guardStage2])
          | bool b => simp [jsGet] at hex
          | num m0 e0 => simp [jsGet] at hex
          | str s2 => simp [jsGet] at hex
          | arr xs => simp [jsGet] at hex
          | obj ms =>
            show ((match jsGet (JVal.obj ms) "exp" with
              | some e =>
                if jsTruthy e then
                  match toNum e with
                  | some mn2 =>
                    if dnLtInt mn2.1 mn2.2 (Int.fdiv nowMs 1000) then
                      ((GuardResult.redirect true, none) : GuardResult × Option String)
                    else (.render, some t)
                  | none => (.render, some t)
                else (.render, some t)
              | none => (.render, some t)).1 = GuardResult.render) → _
            simp only [hex, if_pos htr, hmn]
            by_cases hlt : dnLtInt mn.1 mn.2 (Int.fdiv nowMs 1000) = true
            · rw [if_pos hlt]
              intro hr
              exact absurd hr (by simp)
            · intro _
              simp at hlt
              exact hlt
    · rintro ⟨payload, hdec, hnull, hcond⟩
      simp only [hdec]
      show (guardStage2 t nowMs payload).1 = GuardResult.render
      cases payload with
      | null => exact absurd rfl hnull
      | bool b =>
        cases hx : jsGet (JVal.bool b) "exp" with
        | none => rfl
        | some ex => simp [jsGet] at hx
      | num m0 e0 => rfl
      | str s2 => rfl
      | arr xs => rfl
      | obj ms =>
        show (match jsGet (JVal.obj ms) "exp" with
          | some e =>
            if jsTruthy e then
              match toNum e with
              | some mn2 =>
                if dnLtInt mn2.1 mn2.2 (Int.fdiv nowMs 1000) then
                  ((GuardResult.redirect true, none) : GuardResult × Option String)
                else (.render, some t)
              | none => (.render, some t)
            else (.render, some t)
          | none => (.render, some t)).1 = GuardResult.render
        cases hx : jsGet (JVal.obj ms) "exp" with
        | none => rfl
        | some ex =>
          dsimp only
          by_cases htr : jsTruthy ex = true
          · rw [if_pos htr]
            cases hn : toNum ex with
            | none => rfl
            | some mn =>
              dsimp only
              rw [hcond ex hx htr mn hn]
              rfl
          · rw [if_neg htr]

/-- Witness for C8: a non-empty token with an unexpired numeric exp renders
the protected content. -/
theorem claim_c8_witness :
    (requireAuth (some "x.eyJleHAiOjIwMDAwMDAwMDB9.y") 1000000000000).1 = .render := by
  refine ((claim_c8 1000000000000).2 "x.eyJleHAiOjIwMDAwMDAwMDB9.y" (by decide)).mpr
    ⟨.obj (.ocons "exp" (.num 2000000000 0) .onil), rfl, fun h => JVal.noConfusion h, ?_⟩
  intro ex hex htr mn hmn
  have hex2 : ex = JVal.num 2000000000 0 := by
    have h0 : some (JVal.num 2000000000 0) = some ex := hex
    injection h0 with h2
    exact h2.symm
  subst hex2
  have hmn2 : mn = ((2000000000 : Int), (0 : Int)) := by
    have h0 : some ((2000000000 : Int), (0 : Int)) = some mn := hmn
    injection h0 with h2
    exact h2.symm
  subst hmn2
  decide

/-- Counterexample to the original C8: a decodable payload with no exp claim
renders the protected content instead of redirecting. -/
theorem claim_c8_counterexample :
    (requireAuth (some "x.eyJmb28iOjF9.y") 1000000000000).1 = .render := rfl

/-- C9 (amended): refreshToken fails on a missing token and on an
undecodable payload, but it can also fail with a decodable payload when the
header segment does not decode or re-encoding throws; when every stage
succeeds it rewrites the exp claim to Math.floor(now/1000) + 1800 seconds
(30 minutes from now, not 30 minutes beyond the old expiration), rebuilds
the token around the original signature and persists it through
updateAuthState, and the rebuilt token decodes to the extended payload. -/
theorem claim_c9 (s : AuthState) (t : String) (nowMs : Int) (payload header : JVal)
    (headerText h64 p64 : List Char) :
    (s.token = none →
      refreshToken s nowMs = (s, { success := false, error := some "No token to refresh" }))
    ∧ (s.token = some t → t ≠ "" → decodeToken t = none →
      refreshToken s nowMs = (s, { success := false, error := some "Invalid token format" }))
    ∧ (s.token = some t → t ≠ "" →
       decodeToken t = some payload → jsTruthy payload = true →
       atobC (((splitDots t).get? 0).getD "undefined".data) = some headerText →
       jsonParse (String.mk headerText) = some header →
       btoaC (stringifyV header) = some h64 →
       btoaC (stringifyV (.obj (setKeyO (spreadProps payload) "exp"
         (.num (Int.fdiv nowMs 1000 + 30 * 60) 0)))) = some p64 →
       wfO (spreadProps payload) = true →
       refreshToken s nowMs
         = (updateAuthState s
             (some (String.mk (h64 ++ '.' :: p64 ++ '.'
               :: ((splitDots t).get? 2).getD "undefined".data))) nowMs,
            { success := true, error := none })
       ∧ decodeToken (String.mk (h64 ++ '.' :: p64 ++ '.'
             :: ((splitDots t).get? 2).getD "undefined".data))
           = some (.obj (setKeyO (spreadProps payload) "exp"
               (.num (Int.fdiv nowMs 1000 + 30 * 60) 0)))
       ∧ jsGet (.obj (setKeyO (spreadProps payload) "exp"
             (.num (Int.fdiv nowMs 1000 + 30 * 60) 0))) "exp"
           = some (.num (Int.fdiv nowMs 1000 + 30 * 60) 0)) := by
  refine ⟨?_, ?_, ?_⟩
  · intro hs
    unfold refreshToken
    simp only [hs]
  · intro hs ht hd
    unfold refreshToken
    simp only [hs]
    rw [if_neg ht]
    simp only [hd]
  · intro hs ht hd htr hh hhp hb1 hb2 hwf
    refine ⟨?_, ?_, ?_⟩
    · unfold refreshToken
      simp only [hs]
      rw [if_neg ht]
      simp only [hd, htr, Bool.not_true]
      rw [if_neg (by decide)]
      simp only [hh, hhp]
      simp only [hb1, hb2]
    · rw [show h64 ++ '.' :: p64 ++ '.' :: ((splitDots t).get? 2).getD "undefined".data
        = h64 ++ '.' :: (p64 ++ '.' :: ((splitDots t).get? 2).getD "undefined".data)
        from by simp]
      rw [decodeToken_rebuilt (stringifyV header)
        (stringifyV (.obj (setKeyO (spreadProps payload) "exp"
          (.num (Int.fdiv nowMs 1000 + 30 * 60) 0))))
        h64 p64 (((splitDots t).get? 2).getD "undefined".data) hb1 hb2]
      exact jsonParse_stringify _ (setKeyO_wf (spreadProps payload) "exp" _ hwf rfl)
    · exact lookupO_setKeyO (spreadProps payload) "exp" _

/-- Witness for C9: a concrete token with base64 header and payload segments
is refreshed to a token whose payload carries exp = 1800 at time zero. -/
theorem claim_c9_witness :
    refreshToken
        { token := some "eyJhIjoxfQ==.eyJleHAiOjV9.sig", user := none,
          isAuthenticated := true, isTokenExpiring := false, timeUntilExpiration := 0,
          storage := some "eyJhIjoxfQ==.eyJleHAiOjV9.sig" } 0
      = (updateAuthState
          { token := some "eyJhIjoxfQ==.eyJleHAiOjV9.sig", user := none,
            isAuthenticated := true, isTokenExpiring := false, timeUntilExpiration := 0,
            storage := some "eyJhIjoxfQ==.eyJleHAiOjV9.sig" }
          (some (String.mk ("eyJhIjoxfQ==".data ++ '.' :: "eyJleHAiOjE4MDB9".data ++ '.'
            :: "sig".data))) 0,
         { success := true, error := none })
    ∧ decodeToken (String.mk ("eyJhIjoxfQ==".data ++ '.' :: "eyJleHAiOjE4MDB9".data ++ '.'
          :: "sig".data))
        = some (.obj (.ocons "exp" (.num 1800 0) .onil)) := by
  have h := (claim_c9
    { token := some "eyJhIjoxfQ==.eyJleHAiOjV9.sig", user := none,
      isAuthenticated := true, isTokenExpiring := false, timeUntilExpiration := 0,
      storage := some "eyJhIjoxfQ==.eyJleHAiOjV9.sig" }
    "eyJhIjoxfQ==.eyJleHAiOjV9.sig" 0
    (.obj (.ocons "exp" (.num 5 0) .onil))
    (.obj (.ocons "a" (.num 1 0) .onil))
    "\x7b\x22a\x22:1\x7d".data
    "eyJhIjoxfQ==".data
    "eyJleHAiOjE4MDB9".data).2.2
    rfl (by decide) rfl rfl rfl rfl rfl rfl rfl
  exact ⟨h.1, h.2.1⟩

/-- Counterexample to the original C9: a token whose payload decodes cleanly
still fails to refresh because its header segment is not valid base64. -/
theorem claim_c9_counterexample :
    decodeToken "!!!.eyJleHAiOjV9.sig" = some (.obj (.ocons "exp" (.num 5 0) .onil))
    ∧ (refreshToken
        { token := some "!!!.eyJleHAiOjV9.sig", user := none, isAuthenticated := true,
          isTokenExpiring := false, timeUntilExpiration := 0,
          storage := some "!!!.eyJleHAiOjV9.sig" } 0).2
      = { success := false, error := some "Failed to refresh token" } := ⟨rfl, rfl⟩
